import Mathlib

set_option maxRecDepth 10000

/-!
Verification development for the hdeps dependency walker.

This file gives a shallow embedding, in Lean 4, of the parts of the hdeps
code base relevant to its specification: the version-compatibility selector
(`src/hdeps/compatibility.py`), the environment-marker model
(`src/hdeps/markers.py`), the blob cache (`src/hdeps/cache.py`, including a
full executable SHA-1), the `requires.txt` translation
(`src/hdeps/projects.py`), the simplified requirements reader
(`src/hdeps/requirements.py`), and the walker drain loop together with its
memoization maps (`src/hdeps/resolution.py`).

Conventions used throughout the embedding:

* PEP 440 versions (the external `packaging.version.Version` class) are
  abstracted to natural numbers; the code under verification only uses
  equality, the total order, and membership in specifier sets, all of which
  are preserved by this abstraction.
* A `packaging.specifiers.SpecifierSet` is modelled as a finite conjunction
  of version comparisons (`Specifier` below) together with its decidable
  membership test.  `SpecifierSet.filter` is modelled pointwise; the
  prerelease-inclusion subtleties of the external library are below this
  model's granularity.
* Python dictionaries that preserve insertion order are modelled as
  association lists, and Python sets as duplicate-free lists.
* Network calls hidden behind futures are modelled as pure oracle functions;
  within one walk a future for the same name always yields the same value,
  so awaiting a future is the same as applying the oracle.
-/

/-! ## Basic helpers shared by the embedding -/

/-- Python association lookup `m.get(k)` over an insertion-ordered map. -/
def lookupAssoc {α : Type} (m : List (String × α)) (k : String) : Option α :=
  (m.find? (fun kv => kv.1 == k)).map (fun kv => kv.2)

/-- Python `m[k] = v` over an insertion-ordered map: replace in place, or
append a fresh binding at the end. -/
def setAssoc {α : Type} (m : List (String × α)) (k : String) (v : α) : List (String × α) :=
  match m with
  | [] => [(k, v)]
  | kv :: rest => if kv.1 == k then (k, v) :: rest else kv :: setAssoc rest k v

/-- Python `enumerate(l)`: pair each element with its index, starting at `i`. -/
def pyEnumerateFrom {α : Type} (i : Nat) : List α → List (Nat × α)
  | [] => []
  | a :: rest => (i, a) :: pyEnumerateFrom (i + 1) rest

/-- Python `enumerate(l)` starting at index 0. -/
def pyEnumerate {α : Type} (l : List α) : List (Nat × α) :=
  pyEnumerateFrom 0 l

/-- Python `set.add`: sets are modelled as duplicate-free lists in insertion
order, so adding an element appends it only when it is new. -/
def setAdd {α : Type} [DecidableEq α] (s : List α) (v : α) : List α :=
  if v ∈ s then s else s ++ [v]

/-! ## Data model (`src/hdeps/types.py`, `src/hdeps/projects.py`)

`Version` abstracts `packaging.version.Version`; `CanonicalName` is a
normalized project name (`packaging.utils.canonicalize_name` output); names
appearing in the model are taken to be already canonical. -/

abbrev Version := Nat

abbrev CanonicalName := String

/-- A PEP 440 specifier set: a finite conjunction of version comparisons,
with `all` for the empty specifier set (which admits everything). -/
inductive Specifier where
  | all : Specifier
  | eqV : Version → Specifier
  | neV : Version → Specifier
  | ltV : Version → Specifier
  | leV : Version → Specifier
  | gtV : Version → Specifier
  | geV : Version → Specifier
  | conj : Specifier → Specifier → Specifier
deriving DecidableEq

/-- Membership of a version in a specifier set (`version in specifier_set`). -/
def Specifier.admits : Specifier → Version → Bool
  | .all, _ => true
  | .eqV w, v => v == w
  | .neV w, v => v != w
  | .ltV w, v => decide (v < w)
  | .leV w, v => decide (v ≤ w)
  | .gtV w, v => decide (v > w)
  | .geV w, v => decide (v ≥ w)
  | .conj a b, v => a.admits v && b.admits v

/-- Model of `SpecifierSet.filter`: keep the versions the specifier admits,
preserving order.  (The external library also owns the prerelease-inclusion
logic; that is below this model's granularity.) -/
def Specifier.filterVersions (s : Specifier) (l : List Version) : List Version :=
  l.filter s.admits

/-- Model of abstract PEP 508 marker evaluation: the target environment of a
walk is fixed, so a `packaging.markers.Marker` is abstracted to its truth
value as a function of the optional `extra` binding. -/
abbrev Marker := Option String → Bool

/-- A PEP 508 requirement (`packaging.requirements.Requirement`): name,
extras, specifier set and optional marker.  Names are taken as canonical. -/
structure Requirement where
  name : CanonicalName
  extras : List String
  specifier : Specifier
  marker : Option Marker

/-- One release of a project (`ProjectVersion` in `src/hdeps/projects.py`):
its version and the derived `requires_python` attribute (the first non-empty
`requires_python` across its distributions).  `none` stands for an absent or
empty `requires_python`; an unparseable `requires_python` is treated by the
code as admitting everything and is modelled by `some Specifier.all`. -/
structure ProjectVersion where
  version : Version
  requires_python : Option Specifier
deriving DecidableEq

/-- A project (`Project` in `src/hdeps/projects.py`): canonical name plus its
insertion-ordered mapping from `Version` to `ProjectVersion` (the code builds
it sorted ascending by version). -/
structure Project where
  name : CanonicalName
  versions : List (Version × ProjectVersion)

/-- Python `v in project.versions` / `project.versions[v]` (dict lookup). -/
def Project.lookupVersion (p : Project) (v : Version) : Option ProjectVersion :=
  (p.versions.find? (fun kv => kv.1 == v)).map (fun kv => kv.2)

/-- The insertion-ordered key list `project.versions.keys()`. -/
def Project.versionKeys (p : Project) : List Version :=
  p.versions.map (fun kv => kv.1)

/-- The current-version callback (`VersionCallback` in `src/hdeps/types.py`).
The code receives an optional string and parses it with `Version`; the
abstraction collapses the string round-trip, and a falsy (empty) string is
collapsed to `none`. -/
abbrev VersionCallback := CanonicalName → Option Version

/-! ## Version compatibility selector (`src/hdeps/compatibility.py`) -/

/-- Embedding of `requires_python_match(project, cache, python_version, v)`.
The `cache` argument memoizes verdicts per `requires_python` string within a
single selector call; as the verdict is a pure function of the string, the
cache is semantically the identity and is dropped here.  The function is only
ever invoked with `v` a key of `project.versions`; the `none` branch is the
total-function default and also covers the "absent `requires_python`" case.
An invalid `requires_python` yields `True` in the code and corresponds to
`some Specifier.all` here. -/
def requires_python_match (project : Project) (python_version : Version)
    (v : Version) : Bool :=
  match project.lookupVersion v with
  | none => true
  | some pv =>
    match pv.requires_python with
    | none => true
    | some spec => spec.admits python_version

/-- The structured counterpart of the `NoMatchingRelease` exception: one
constructor per distinct message format string raised by
`find_best_compatible_version`. -/
inductive NoMatchingRelease where
  /-- Message `"{name} has no {python_version}-compatible release"`. -/
  | noCompatibleRelease : Version → NoMatchingRelease
  /-- Message `"{name} has no release matching {specifier}"`. -/
  | noReleaseMatching : NoMatchingRelease
  /-- Message `"{name} has no release with constraint {specifier}"`. -/
  | noReleaseWithConstraint : NoMatchingRelease
  /-- Message `"{name} has no {python_version}-compatible release with constraint {specifier}"`. -/
  | noCompatibleReleaseWithConstraint : Version → NoMatchingRelease
deriving DecidableEq

/-- Does the raised message mention interpreter compatibility (as opposed to
the specifier admitting no release at all)? -/
def NoMatchingRelease.mentionsPythonCompatibility : NoMatchingRelease → Bool
  | .noCompatibleRelease _ => true
  | .noCompatibleReleaseWithConstraint _ => true
  | _ => false

instance {ε α : Type} [DecidableEq ε] [DecidableEq α] : DecidableEq (Except ε α) := fun a b =>
  match a, b with
  | .ok x, .ok y =>
    if h : x = y then .isTrue (by rw [h]) else .isFalse (fun c => by cases c; exact h rfl)
  | .error x, .error y =>
    if h : x = y then .isTrue (by rw [h]) else .isFalse (fun c => by cases c; exact h rfl)
  | .ok _, .error _ => .isFalse (fun c => Except.noConfusion c)
  | .error _, .ok _ => .isFalse (fun c => Except.noConfusion c)

/-- The initial filter of `find_best_compatible_version`:
`req.specifier.filter(reversed(project.versions.keys()))`, materialized. -/
def initial_filtered (project : Project) (req : Requirement) : List Version :=
  req.specifier.filterVersions project.versionKeys.reverse

/-- The first descending version that the specifier admits and whose
`requires_python` admits the interpreter (`possible.append(version); break`). -/
def initial_candidate (project : Project) (req : Requirement)
    (python_version : Version) : Option Version :=
  (initial_filtered project req).find? (requires_python_match project python_version)

/-- The candidates contributed by `current_version_callback`: a published
current version is kept iff its `requires_python` admits the interpreter, a
non-public current version is kept unconditionally. -/
def callback_candidates (project : Project) (python_version : Version)
    (current_version_callback : VersionCallback) : List Version :=
  match current_version_callback project.name with
  | none => []
  | some cur_v =>
    if (project.lookupVersion cur_v).isSome then
      if requires_python_match project python_version cur_v then [cur_v] else []
    else [cur_v]

/-- The full `possible` list right before the `if not possible` check:
initial candidate, then the callback contribution, then `already_chosen`. -/
def candidate_pool (project : Project) (req : Requirement)
    (python_version : Version) (already_chosen : Option Version)
    (current_version_callback : VersionCallback) : List Version :=
  (initial_candidate project req python_version).toList
    ++ callback_candidates project python_version current_version_callback
    ++ already_chosen.toList

/-- The `possible` list after re-filtering through `req.specifier`
(`possible = list(req.specifier.filter(possible))`). -/
def surviving_candidates (project : Project) (req : Requirement)
    (python_version : Version) (already_chosen : Option Version)
    (current_version_callback : VersionCallback) : List Version :=
  req.specifier.filterVersions
    (candidate_pool project req python_version already_chosen current_version_callback)

/-! ## Python string primitives

The Python code uses a handful of `str` methods (`strip`, `split`,
`rsplit`, `count`, `startswith`, slicing, containment).  They are modelled
here as total functions on `String`, computing on the underlying character
list so that everything reduces by evaluation.  All separators used by the
code are single characters. -/

/-- Python whitespace as used by `str.strip()`. -/
def isPySpace (c : Char) : Bool :=
  c == ' ' || c == '\t' || c == '\n' || c == '\r' || Char.ofNat 11 == c || Char.ofNat 12 == c

/-- Python `s.strip()` on the character list. -/
def pyStripList (l : List Char) : List Char :=
  ((l.dropWhile isPySpace).reverse.dropWhile isPySpace).reverse

/-- Python `s.strip()`. -/
def pyStrip (s : String) : String :=
  String.mk (pyStripList s.toList)

/-- Python `s.split(sep)` for a single-character separator, on character
lists.  Always returns at least one part. -/
def charSplit (sep : Char) : List Char → List (List Char)
  | [] => [[]]
  | c :: rest =>
    let r := charSplit sep rest
    if c == sep then [] :: r
    else
      match r with
      | [] => [[c]]
      | h :: t => (c :: h) :: t

/-- Python `s.split(sep)` at the `String` level. -/
def pySplit (s : String) (sep : Char) : List String :=
  (charSplit sep s.toList).map String.mk

/-- Python `sep.join(parts)` for a single-character separator. -/
def pyJoin (sep : Char) (parts : List String) : String :=
  match parts with
  | [] => ""
  | p :: rest => rest.foldl (fun acc q => acc ++ String.mk [sep] ++ q) p

/-- Python `s.split(sep, 1)[0]`: the prefix before the first separator. -/
def pySplitFirst (s : String) (sep : Char) : String :=
  match pySplit s sep with
  | [] => s
  | p :: _ => p

/-- Python `s.rsplit(sep, 1)[0]`: everything before the last separator, or
the whole string when the separator does not occur. -/
def pyRsplitFirst (s : String) (sep : Char) : String :=
  match pySplit s sep with
  | [] => s
  | [_] => s
  | parts => pyJoin sep parts.dropLast

/-- Python `s.count(c)` for a single character. -/
def pyCount (s : String) (c : Char) : Nat :=
  s.toList.count c

/-- Python `c in s` for a single character. -/
def pyContainsChar (s : String) (c : Char) : Bool :=
  s.toList.contains c

/-- Python `s.startswith(p)` for a single-character prefix, which is also
`s[:1] == p`. -/
def pyStartsWithChar (s : String) (c : Char) : Bool :=
  match s.toList with
  | [] => false
  | d :: _ => d == c

/-- Python `s[-1:] == p` for a single character. -/
def pyEndsWithChar (s : String) (c : Char) : Bool :=
  match s.toList.getLast? with
  | none => false
  | some d => d == c

/-- Python `s[1:-1]`. -/
def pyInner (s : String) : String :=
  String.mk ((s.toList.drop 1).dropLast)

/-! ## Environment markers (`src/hdeps/markers.py`) -/

/-- The `EnvironmentMarkers` dataclass with its field defaults. -/
structure EnvironmentMarkers where
  os_name : String := "posix"
  sys_platform : String := "linux"
  platform_machine : String := "x86_64"
  platform_python_implementation : String := "CPython"
  platform_release : Option String := none
  platform_system : String := "Linux"
  platform_version : Option String := none
  python_version : Option String := none
  python_full_version : Option String := none
  implementation_name : String := "cpython"
deriving DecidableEq

/-- The error kind raised for an unsupported `sys_platform` (a `TypeError`
in the code; the spec calls the kind *InvalidEnvironmentKind*). -/
inductive InvalidEnvironmentKind where
  | unknownSysPlatform : String → InvalidEnvironmentKind
deriving DecidableEq

/-- Python truthiness of an optional string: `None` and `""` are falsy. -/
def pyTruthy : Option String → Bool
  | none => false
  | some s => s != ""

/-- Embedding of `EnvironmentMarkers.__post_init__`: the coherence rewrite
applied at the end of construction.  Constructing the dataclass is modelled
as filling the record and then applying `postInit`. -/
def EnvironmentMarkers.postInit (e : EnvironmentMarkers) :
    Except InvalidEnvironmentKind EnvironmentMarkers :=
  if e.sys_platform == "linux" then
    if pyTruthy e.python_version &&
        pyStartsWithChar (e.python_version.getD "") '2' then
      Except.ok { e with sys_platform := "linux2" }
    else
      Except.ok e
  else if e.sys_platform == "win32" then
    Except.ok { e with platform_system := "Windows", os_name := "nt" }
  else if e.sys_platform == "darwin" then
    Except.ok { e with platform_system := "Darwin" }
  else
    Except.error (InvalidEnvironmentKind.unknownSysPlatform e.sys_platform)

/-- Embedding of `EnvironmentMarkers.from_args(python_version, sys_platform)`.
`host_version_info` stands for `".".join(str(v) for v in sys.version_info[:3])`,
the host interpreter version used when no `python_version` is supplied.
`dataclasses.replace` re-runs `__post_init__`, hence the second `postInit`. -/
def EnvironmentMarkers.from_args (python_version : Option String)
    (sys_platform : Option String) (host_version_info : String) :
    Except InvalidEnvironmentKind EnvironmentMarkers :=
  let pv :=
    if pyTruthy python_version then
      let s := python_version.getD ""
      if pyCount s '.' == 1 then s ++ ".0" else s
    else host_version_info
  let base : EnvironmentMarkers :=
    { python_version := some (pyRsplitFirst pv '.'), python_full_version := some pv }
  match base.postInit with
  | Except.error er => Except.error er
  | Except.ok obj =>
    if pyTruthy sys_platform then
      EnvironmentMarkers.postInit { obj with sys_platform := sys_platform.getD "" }
    else
      Except.ok obj

/-- The composite sort key `(p == already_chosen, p == cur_v, i, p)`. -/
abbrev SortKey := Bool × Bool × Nat × Version

/-- Python's ascending tuple order on the composite sort key
(`False < True` for booleans, then the index, then the version). -/
def SortKeyR (x y : SortKey) : Prop :=
  x.1.toNat < y.1.toNat ∨
    (x.1 = y.1 ∧ (x.2.1.toNat < y.2.1.toNat ∨
      (x.2.1 = y.2.1 ∧ (x.2.2.1 < y.2.2.1 ∨
        (x.2.2.1 = y.2.2.1 ∧ x.2.2.2 ≤ y.2.2.2)))))

instance : DecidableRel SortKeyR := fun x y => by
  unfold SortKeyR
  infer_instance

instance : IsTotal SortKey SortKeyR := by
  constructor
  intro a b
  have binj : ∀ x y : Bool, x.toNat = y.toNat → x = y := by decide
  unfold SortKeyR
  rcases Nat.lt_trichotomy a.1.toNat b.1.toNat with h | h | h
  · exact Or.inl (Or.inl h)
  · rcases Nat.lt_trichotomy a.2.1.toNat b.2.1.toNat with h2 | h2 | h2
    · exact Or.inl (Or.inr ⟨binj _ _ h, Or.inl h2⟩)
    · rcases Nat.lt_trichotomy a.2.2.1 b.2.2.1 with h3 | h3 | h3
      · exact Or.inl (Or.inr ⟨binj _ _ h, Or.inr ⟨binj _ _ h2, Or.inl h3⟩⟩)
      · rcases Nat.le_total a.2.2.2 b.2.2.2 with h4 | h4
        · exact Or.inl (Or.inr ⟨binj _ _ h, Or.inr ⟨binj _ _ h2,
            Or.inr ⟨h3, h4⟩⟩⟩)
        · exact Or.inr (Or.inr ⟨(binj _ _ h).symm, Or.inr ⟨(binj _ _ h2).symm,
            Or.inr ⟨h3.symm, h4⟩⟩⟩)
      · exact Or.inr (Or.inr ⟨(binj _ _ h).symm, Or.inr ⟨(binj _ _ h2).symm,
          Or.inl h3⟩⟩)
    · exact Or.inr (Or.inr ⟨(binj _ _ h).symm, Or.inl h2⟩)
  · exact Or.inr (Or.inl h)

instance : IsTrans SortKey SortKeyR := by
  constructor
  intro a b c hab hbc
  unfold SortKeyR at hab hbc ⊢
  rcases hab with h1 | ⟨e1, h1⟩
  · rcases hbc with h2 | ⟨e2, h2⟩
    · exact Or.inl (Nat.lt_trans h1 h2)
    · exact Or.inl (e2 ▸ h1)
  · rcases hbc with h2 | ⟨e2, h2⟩
    · exact Or.inl (e1 ▸ h2)
    · refine Or.inr ⟨e1.trans e2, ?_⟩
      rcases h1 with h1 | ⟨f1, h1⟩
      · rcases h2 with h2 | ⟨f2, h2⟩
        · exact Or.inl (Nat.lt_trans h1 h2)
        · exact Or.inl (f2 ▸ h1)
      · rcases h2 with h2 | ⟨f2, h2⟩
        · exact Or.inl (f1 ▸ h2)
        · refine Or.inr ⟨f1.trans f2, ?_⟩
          rcases h1 with h1 | ⟨g1, h1⟩
          · rcases h2 with h2 | ⟨g2, h2⟩
            · exact Or.inl (Nat.lt_trans h1 h2)
            · exact Or.inl (g2 ▸ h1)
          · rcases h2 with h2 | ⟨g2, h2⟩
            · exact Or.inl (g1 ▸ h2)
            · exact Or.inr ⟨g1.trans g2, Nat.le_trans h1 h2⟩

/-- The final sort-and-take-last of `find_best_compatible_version`
(`sorted((p == already_chosen, p == cur_v, i, p) for (i, p) in
enumerate(possible))` followed by `xform_possible[-1][3]`).  Python's stable
`sorted` is modelled by insertion sort: all keys are distinct thanks to the
index component, so any ascending sort has the same last element. -/
def bestOf (already_chosen cur_v : Option Version) (possible : List Version) : Version :=
  let keyed := (pyEnumerate possible).map
    (fun ip => (decide (already_chosen = some ip.2), decide (cur_v = some ip.2), ip.1, ip.2))
  ((List.insertionSort SortKeyR keyed).getLastD (false, false, 0, 0)).2.2.2

/-- Embedding of `find_best_compatible_version(project, req, env_markers,
already_chosen, current_version_callback)`.  Of the environment markers only
`python_full_version` is consulted (the code asserts it is set and parses it);
it is passed here directly as `python_version`. -/
def find_best_compatible_version (project : Project) (req : Requirement)
    (python_version : Version) (already_chosen : Option Version)
    (current_version_callback : VersionCallback) :
    Except NoMatchingRelease Version :=
  let possible :=
    candidate_pool project req python_version already_chosen current_version_callback
  if possible.isEmpty then
    if !(initial_filtered project req).isEmpty then
      Except.error (NoMatchingRelease.noCompatibleRelease python_version)
    else
      Except.error NoMatchingRelease.noReleaseMatching
  else
    let survivors :=
      surviving_candidates project req python_version already_chosen current_version_callback
    if survivors.isEmpty then
      if (req.specifier.filterVersions project.versionKeys).isEmpty then
        Except.error NoMatchingRelease.noReleaseWithConstraint
      else
        Except.error (NoMatchingRelease.noCompatibleReleaseWithConstraint python_version)
    else
      Except.ok (bestOf already_chosen (current_version_callback project.name) survivors)

/-! ## Blob cache (`src/hdeps/cache.py`)

The cache derives its on-disk path from `hashlib.sha1` of the UTF-8 encoded
key.  Both the UTF-8 encoder and SHA-1 are implemented here executably so
that the path derivation is verified down to the digest. -/

/-- UTF-8 encoding of one Unicode code point (RFC 3629). -/
def utf8EncodeChar (n : Nat) : List Nat :=
  if n < 128 then [n]
  else if n < 2048 then [192 + n / 64, 128 + n % 64]
  else if n < 65536 then [224 + n / 4096, 128 + (n / 64) % 64, 128 + n % 64]
  else [240 + n / 262144, 128 + (n / 4096) % 64, 128 + (n / 64) % 64, 128 + n % 64]

/-- Python `key.encode("utf-8")` as a byte list. -/
def utf8Encode (s : String) : List Nat :=
  (s.toList.map (fun c => utf8EncodeChar c.toNat)).flatten

/-- Two to the thirty-second power, the modulus of SHA-1 word arithmetic. -/
def M32 : Nat := 4294967296

/-- Rotate a 32-bit word left by `n` bits. -/
def rotl32 (n x : Nat) : Nat :=
  ((x <<< n) % M32) ||| (x >>> (32 - n))

/-- SHA-1 message padding: append `0x80`, zero bytes to reach 56 mod 64,
then the 64-bit big-endian bit length. -/
def sha1Pad (msg : List Nat) : List Nat :=
  let ml := msg.length
  let zeros := (120 - (ml + 1) % 64) % 64
  msg ++ [128] ++ List.replicate zeros 0 ++
    (List.range 8).map (fun i => ((ml * 8) >>> (8 * (7 - i))) % 256)

/-- Split a byte list into big-endian 32-bit words (length a multiple of 4). -/
def bytesToWords : List Nat → List Nat
  | a :: b :: c :: d :: rest => (((a * 256 + b) * 256 + c) * 256 + d) :: bytesToWords rest
  | _ => []

/-- Word `i` of the schedule, or 0 out of range. -/
def wordAt (w : List Nat) (i : Nat) : Nat :=
  w.getD i 0

/-- Extend the 16-word schedule by `k` further words (to 80 in total). -/
def sha1Extend (k : Nat) (w : List Nat) : List Nat :=
  match k with
  | 0 => w
  | k + 1 =>
    let i := w.length
    let nw := rotl32 1 (wordAt w (i - 3) ^^^ wordAt w (i - 8) ^^^ wordAt w (i - 14) ^^^ wordAt w (i - 16))
    sha1Extend k (w ++ [nw])

/-- The SHA-1 state: five 32-bit words. -/
abbrev Sha1State := Nat × Nat × Nat × Nat × Nat

/-- One SHA-1 compression round. -/
def sha1Round (st : Sha1State) (t wi : Nat) : Sha1State :=
  let a := st.1
  let b := st.2.1
  let c := st.2.2.1
  let d := st.2.2.2.1
  let e := st.2.2.2.2
  let f :=
    if t < 20 then (b &&& c) ||| ((b ^^^ 4294967295) &&& d)
    else if t < 40 then b ^^^ c ^^^ d
    else if t < 60 then (b &&& c) ||| (b &&& d) ||| (c &&& d)
    else b ^^^ c ^^^ d
  let k :=
    if t < 20 then 1518500249
    else if t < 40 then 1859775393
    else if t < 60 then 2400959708
    else 3395469782
  let temp := (rotl32 5 a + f + e + k + wi) % M32
  (temp, a, rotl32 30 b, c, d)

/-- Process one 64-byte chunk. -/
def sha1Chunk (chunk : List Nat) (h : Sha1State) : Sha1State :=
  let w := sha1Extend 64 (bytesToWords chunk)
  let st := (pyEnumerate w).foldl (fun st tw => sha1Round st tw.1 tw.2) h
  ((h.1 + st.1) % M32, (h.2.1 + st.2.1) % M32, (h.2.2.1 + st.2.2.1) % M32,
    (h.2.2.2.1 + st.2.2.2.1) % M32, (h.2.2.2.2 + st.2.2.2.2) % M32)

/-- Process successive 64-byte chunks; `fuel` bounds the recursion and is
instantiated with the total byte count, which is at least the chunk count. -/
def sha1Chunks (fuel : Nat) (bytes : List Nat) (h : Sha1State) : Sha1State :=
  match fuel with
  | 0 => h
  | fuel + 1 =>
    match bytes with
    | [] => h
    | _ => sha1Chunks fuel (bytes.drop 64) (sha1Chunk (bytes.take 64) h)

/-- Lowercase hexadecimal digit. -/
def hexChar (n : Nat) : Char :=
  if n < 10 then Char.ofNat (48 + n) else Char.ofNat (87 + n)

/-- A 32-bit word as eight lowercase hex characters. -/
def wordHex (v : Nat) : List Char :=
  (List.range 8).map (fun i => hexChar ((v >>> (4 * (7 - i))) % 16))

/-- `hashlib.sha1(bytes).hexdigest()`: the lowercase hex SHA-1 digest. -/
def sha1hex (msg : List Nat) : String :=
  let padded := sha1Pad msg
  let h := sha1Chunks padded.length padded
    (1732584193, 4023233417, 2562383102, 271733878, 3285377520)
  String.mk (wordHex h.1 ++ wordHex h.2.1 ++ wordHex h.2.2.1 ++ wordHex h.2.2.2.1 ++ wordHex h.2.2.2.2)

/-- A filesystem path as a list of components. -/
abbrev CachePath := List String

/-- The filesystem visible to the cache: a map from paths to byte contents.
`SimpleCache.set` creates a unique temporary sibling and atomically renames
it over the target; in this sequential model that collapses to a single
write of the final path (`mkdir` of parents is implicit). -/
abbrev FileSystem := List (CachePath × List Nat)

/-- Read a file (`Path.read_bytes`), or `none` when absent (`OSError`). -/
def fsRead (fs : FileSystem) (p : CachePath) : Option (List Nat) :=
  (fs.find? (fun e => e.1 == p)).map (fun e => e.2)

/-- Write a file, replacing any previous content (`os.replace`). -/
def fsWrite (fs : FileSystem) (p : CachePath) (v : List Nat) : FileSystem :=
  match fs with
  | [] => [(p, v)]
  | e :: rest => if e.1 == p then (p, v) :: rest else e :: fsWrite rest p v

/-- The `SimpleCache` object: its root directory.  (The `stats` counters and
the default `appdirs` root do not affect the cached data and are omitted.) -/
structure SimpleCache where
  cache_path : CachePath

/-- Embedding of `SimpleCache._local_path`: `cache_path.joinpath(*h[:5], h)`
where `h` is the lowercase hex SHA-1 of the UTF-8 encoded key.  Unpacking
the string `h[:5]` yields its five characters as separate components. -/
def SimpleCache.localPath (c : SimpleCache) (key : String) : CachePath :=
  let h := sha1hex (utf8Encode key)
  c.cache_path ++ (h.toList.take 5).map (fun ch => String.mk [ch]) ++ [h]

/-- Embedding of `SimpleCache.get`. -/
def SimpleCache.get (c : SimpleCache) (fs : FileSystem) (key : String) : Option (List Nat) :=
  fsRead fs (c.localPath key)

/-- Embedding of `SimpleCache.set`. -/
def SimpleCache.set (c : SimpleCache) (fs : FileSystem) (key : String) (value : List Nat) :
    FileSystem :=
  fsWrite fs (c.localPath key) value

/-! ## Legacy `requires.txt` translation (`src/hdeps/projects.py`) -/

/-- A single quote character, used by Python `repr` of simple strings. -/
def squote : String := String.mk [Char.ofNat 39]

/-- Python `f"{s!r}"` for the extra names appearing in `requires.txt`
section headers: `repr` wraps them in single quotes.  (Escaping inside the
name is beyond the translation's inputs and is not modelled.) -/
def pyRepr (s : String) : String := squote ++ s ++ squote

/-- Is this stripped line a `[section]` header
(`line[:1] == "[" and line[-1:] == "]"`)? -/
def isHeaderLine (line : String) : Bool :=
  pyStartsWithChar line '[' && pyEndsWithChar line ']'

/-- The loop state of `convert_sdist_requires`: the marker suffix currently
in force (`None` before the first header), the extras seen so far, and the
emitted requirement lines. -/
structure SdistConvState where
  current_markers : Option String
  extras : List String
  lst : List String

/-- One iteration of the `convert_sdist_requires` loop. -/
def convertSdistLine (st : SdistConvState) (rawLine : String) : SdistConvState :=
  let line := pyStrip rawLine
  if line == "" then st
  else if isHeaderLine line then
    let cm := pyInner line
    if pyContainsChar cm ':' then
      match pySplit cm ':' with
      | [] => st
      | extra :: restParts =>
        let markers := pyJoin ':' restParts
        if extra != "" then
          { st with extras := setAdd st.extras extra,
                    current_markers := some ("(" ++ markers ++ ") and extra == " ++ pyRepr extra) }
        else
          { st with current_markers := some markers }
    else
      { st with current_markers := some ("extra == " ++ pyRepr cm) }
  else
    match st.current_markers with
    | some cm =>
      if cm != "" then { st with lst := st.lst ++ [line ++ "; " ++ cm] }
      else { st with lst := st.lst ++ [line] }
    | none => { st with lst := st.lst ++ [line] }

/-- Embedding of `convert_sdist_requires(data)` over the line list
(`data.splitlines()`); returns `(lst, extras)`. -/
def convert_sdist_requires_lines (lines : List String) : List String × List String :=
  let st := lines.foldl convertSdistLine
    { current_markers := none, extras := [], lst := [] }
  (st.lst, st.extras)

/-- Embedding of `convert_sdist_requires(data)` on the raw text; Python
`splitlines` is modelled by splitting on the newline character (the only
terminator occurring in its inputs; trailing empty fragments are stripped
away by the loop either way). -/
def convert_sdist_requires (data : String) : List String × List String :=
  convert_sdist_requires_lines (pySplit data '\n')

/-! ## Simplified requirements reader (`src/hdeps/requirements.py`) -/

/-- The cleaning applied to each requirements line:
`line.split("#", 1)[0].strip()`. -/
def cleanLine (line : String) : String :=
  pyStrip (pySplitFirst line '#')

/-- The observable outcome of `_iter_simple_requirements`: the texts passed
to the `Requirement` constructor (in order), the number of warnings emitted,
and the process-global `SHOWN_IGNORE_MESSAGE` latch after the call. -/
structure IterReqState where
  shown_ignore_message : Bool
  warnings : Nat
  out : List String

/-- One loop iteration of `_iter_simple_requirements`. -/
def iterReqLine (st : IterReqState) (rawLine : String) : IterReqState :=
  let line := cleanLine rawLine
  if line == "" then st
  else if pyStartsWithChar line '-' then
    if st.shown_ignore_message then st
    else { st with shown_ignore_message := true, warnings := st.warnings + 1 }
  else { st with out := st.out ++ [line] }

/-- Embedding of `_iter_simple_requirements(path)` over the file's line list
(`path.read_text().splitlines()`), starting from the current value of the
process-global `SHOWN_IGNORE_MESSAGE` flag. -/
def iter_simple_requirements (shown : Bool) (lines : List String) : IterReqState :=
  lines.foldl iterReqLine { shown_ignore_message := shown, warnings := 0, out := [] }

/-! ## Walker drain loop (`src/hdeps/resolution.py`)

The drain loop runs on a single thread; worker futures only perform network
fetches, whose results are deterministic within one walk.  They are modelled
by the pure oracles in `WalkSetup` (`fetchProject` for
`memo_fetch[name].result()`, `getDeps` for
`memo_version_metadata[t].result()`).  Choices are mutable shared objects in
Python; here they live in an arena (`nodes`), with edges pointing at arena
indices, and the root sentinel at index 0. -/

/-- The identity key of a Choice: `(project, version, extras)`
(`ChoiceKeyType` in `src/hdeps/types.py`). -/
abbrev ChoiceKey := CanonicalName × Version × List String

/-- A node in the output graph (`Choice` in `src/hdeps/types.py`).  `deps`
holds arena indices of edge targets. -/
structure Choice where
  project : CanonicalName
  version : Version
  extras : List String
  deps : List Nat
  has_sdist : Bool
  has_wheel : Bool

/-- `Choice.key()`. -/
def Choice.key (c : Choice) : ChoiceKey :=
  (c.project, c.version, c.extras)

/-- An edge of the output graph (`Edge` in `src/hdeps/types.py`), stored in
the arena alongside the index of its target Choice. -/
structure Edge where
  target : Nat
  specifier : Specifier
  markers : Option Marker
  note : String

/-- One entry of the walker work queue:
`(parent, name, req, source, parent_keys)`, with the parent Choice as an
arena index and the ancestor key set as a duplicate-free list. -/
structure QueueEntry where
  parent : Nat
  name : CanonicalName
  req : Requirement
  source : String
  parent_keys : List ChoiceKey

/-- Dependency metadata of one release (`BasicMetadata` in
`src/hdeps/projects.py`). -/
structure BasicMetadata where
  reqs : List Requirement
  extras : List String
  has_sdist : Bool
  has_wheel : Bool

/-- The fixed per-walk context: the environment's `python_full_version`, the
current-version callback, and the network oracles standing for the futures. -/
structure WalkSetup where
  python_full_version : Version
  current_version_callback : VersionCallback
  fetchProject : CanonicalName → Project
  getDeps : ProjectVersion → BasicMetadata

/-- The mutable state of a `Walker` during `drain`, plus the ghost field
`chosenLog` recording every assignment `chosen[name] = version` in order
(for stating history invariants; the code does not keep it). -/
structure WalkerState where
  nodes : List Choice
  edges : List Edge
  queue : List QueueEntry
  chosen : List (CanonicalName × Version)
  known_conflicts : List (CanonicalName × List Version)
  memo_version_metadata : List ProjectVersion
  chosenLog : List (CanonicalName × Version)

/-- Replace the node at index `i` by `f` of it (Python mutates the shared
Choice object in place). -/
def modifyNode (nodes : List Choice) (i : Nat) (f : Choice → Choice) : List Choice :=
  match nodes, i with
  | [], _ => []
  | c :: rest, 0 => f c :: rest
  | c :: rest, j + 1 => c :: modifyNode rest j f

/-- Embedding of `env_markers.match(marker, extras)` with the environment
fixed (see `Marker`). -/
def markerMatch (marker : Option Marker) (extras : List String) : Bool :=
  match marker with
  | none => true
  | some m =>
    match extras with
    | [] => m none
    | _ => extras.any (fun e => m (some e))

/-- `known_conflicts[name].update([cur, version])` over the defaultdict of
sets. -/
def conflictsAdd (kc : List (CanonicalName × List Version)) (name : CanonicalName)
    (cur version : Version) : List (CanonicalName × List Version) :=
  let old := (lookupAssoc kc name).getD []
  setAssoc kc name (setAdd (setAdd old cur) version)

/-- The selector call made for one queue entry, with
`already_chosen = chosen.get(name)`. -/
def selectedVersion (W : WalkSetup) (s : WalkerState) (e : QueueEntry) :
    Except NoMatchingRelease Version :=
  find_best_compatible_version (W.fetchProject e.name) e.req W.python_full_version
    (lookupAssoc s.chosen e.name) W.current_version_callback

/-- Processing of a single popped queue entry: the body of the `while` loop
in `Walker.drain`.  A selector failure propagates (aborting the walk); the
worker-side prefetches do not affect the drained graph and are not replayed
here (their ordered insertions are modelled separately below). -/
def drainStep (W : WalkSetup) (e : QueueEntry) (s : WalkerState) :
    Except NoMatchingRelease WalkerState :=
  let project := W.fetchProject e.name
  let cur := lookupAssoc s.chosen e.name
  match selectedVersion W s e with
  | Except.error er => Except.error er
  | Except.ok version =>
    let choiceIdx := s.nodes.length
    let choice : Choice :=
      { project := e.name, version := version, extras := [], deps := [],
        has_sdist := false, has_wheel := false }
    let edgeIdx := s.edges.length
    let edge : Edge :=
      { target := choiceIdx, specifier := e.req.specifier, markers := e.req.marker,
        note := e.source }
    let nodes1 := modifyNode (s.nodes ++ [choice]) e.parent
      (fun c => { c with deps := c.deps ++ [edgeIdx] })
    let key : ChoiceKey := (e.name, version, [])
    if key ∈ e.parent_keys then
      Except.ok { s with nodes := nodes1, edges := s.edges ++ [edge] }
    else
      let conflicts1 :=
        match cur with
        | some c => if c != version then conflictsAdd s.known_conflicts e.name c version
                    else s.known_conflicts
        | none => s.known_conflicts
      let chosen1 := setAssoc s.chosen e.name version
      let log1 := s.chosenLog ++ [(e.name, version)]
      match project.lookupVersion version with
      | none =>
        Except.ok { s with nodes := nodes1, edges := s.edges ++ [edge],
                           known_conflicts := conflicts1, chosen := chosen1,
                           chosenLog := log1 }
      | some t =>
        let memo1 :=
          if t ∈ s.memo_version_metadata then s.memo_version_metadata
          else s.memo_version_metadata ++ [t]
        let md := W.getDeps t
        let nodes2 := modifyNode nodes1 choiceIdx
          (fun c => { c with has_sdist := md.has_sdist, has_wheel := md.has_wheel })
        let newEntries := (md.reqs.filter
            (fun r => markerMatch r.marker (List.insertionSort (fun a b : String => a ≤ b) e.req.extras))).map
          (fun r => { parent := choiceIdx, name := r.name, req := r, source := "dep",
                      parent_keys := e.parent_keys.insert key : QueueEntry })
        Except.ok { s with nodes := nodes2, edges := s.edges ++ [edge],
                           known_conflicts := conflicts1, chosen := chosen1,
                           chosenLog := log1, memo_version_metadata := memo1,
                           queue := s.queue ++ newEntries }

/-- The `while self.queue` loop of `Walker.drain`, fuelled: `fuel = 0` stops
mid-walk (used only to make partial executions expressible; every invariant
below holds for every fuel). -/
def drainLoop (W : WalkSetup) (fuel : Nat) (s : WalkerState) :
    Except NoMatchingRelease WalkerState :=
  match fuel with
  | 0 => Except.ok s
  | fuel + 1 =>
    match s.queue with
    | [] => Except.ok s
    | e :: rest =>
      match drainStep W e { s with queue := rest } with
      | Except.error er => Except.error er
      | Except.ok s1 => drainLoop W fuel s1

/-- Embedding of `Walker.drain`: the per-call `chosen` map starts empty
(`chosen: Dict[CanonicalName, Version] = {}`); the ghost log starts empty
with it. -/
def Walker.drain (W : WalkSetup) (fuel : Nat) (s : WalkerState) :
    Except NoMatchingRelease WalkerState :=
  drainLoop W fuel { s with chosen := [], chosenLog := [] }

/-- The root sentinel `Choice(CanonicalName("-"), Version("0"))`. -/
def rootChoice : Choice :=
  { project := "-", version := 0, extras := [], deps := [],
    has_sdist := false, has_wheel := false }

/-- The walker state right after construction (or after `clear()`):
only the root sentinel, no queue, empty maps. -/
def initialWalkerState : WalkerState :=
  { nodes := [rootChoice], edges := [], queue := [], chosen := [],
    known_conflicts := [], memo_version_metadata := [], chosenLog := [] }

/-- Embedding of `Walker.feed(req, source)`: a marker rejected by the
environment drops the requirement; otherwise enqueue an edge from root.
(The `memo_fetch` scheduling is represented by the `fetchProject` oracle.) -/
def Walker.feed (s : WalkerState) (req : Requirement) (source : String) : WalkerState :=
  if req.marker.isSome && !(markerMatch req.marker []) then s
  else
    { s with queue := s.queue ++
        [{ parent := 0, name := req.name, req := req, source := source, parent_keys := [] }] }

/-! ## The `memo_version_metadata` insertion protocol (`src/hdeps/resolution.py`)

Both insertion sites for `memo_version_metadata` follow the same unlocked
check-then-insert pattern for one `ProjectVersion` key `t`:

* worker side, `_fetch_project` lines 104-107:
  `if latest_version not in self.memo_version_metadata:` then
  `self.memo_version_metadata[latest_version] = self.pool.submit(...)`;
* drain side, `Walker.drain` lines 180-182:
  `if t not in self.memo_version_metadata:` then submit and assign.

No lock protects these two sites, but the source totally orders all the
executions that touch any one key.  `ProjectVersion` is a frozen dataclass
whose equality includes the `packages` tuple, so two equal keys come from
the same project page; the only worker-side submitter for a key therefore
lives inside the `_fetch_project` future of that key's project, and that
future is unique per project name because every submission of
`_fetch_project` is double-checked under `memo_fetch_lock` (`feed` lines
85-89, `_fetch_project_metadata` lines 130-134, `drain` lines 203-208).
The drain loop reaches its check at line 180 only through
`project = self.memo_fetch[name].result()` at line 153, which returns only
after that unique future — including its prefetch check-then-insert — has
completed; and all drain-side executions run on the single drain thread.
Hence every action of the worker-side submitter for a key precedes every
drain-side action on that key.

The model below runs one check-then-insert program per submitter against
the shared map.  Program counter 0 means "has not yet evaluated the
membership test", 1 means "observed the key absent, about to submit and
assign", 2 means "finished".  `memoHas` is key membership in
`memo_version_metadata`, and `submits` counts the
`pool.submit(self._fetch_project_metadata, ...)` calls made for the key
(each one is a scheduled metadata fetch). -/

structure RaceState where
  memoHas : Bool
  submits : Nat
  pcs : List Nat

/-- One atomic action of thread `tid`: either its membership check or its
submit-and-assign.  (The membership test and the assignment are single
dictionary operations, hence atomic; the `pool.submit` call and the
assignment are merged into one action, which only makes interleavings
coarser.) -/
def raceStep (s : RaceState) (tid : Nat) : RaceState :=
  match s.pcs.get? tid with
  | none => s
  | some 0 =>
    if s.memoHas then { s with pcs := s.pcs.set tid 2 }
    else { s with pcs := s.pcs.set tid 1 }
  | some 1 =>
    { s with memoHas := true, submits := s.submits + 1, pcs := s.pcs.set tid 2 }
  | some _ => s

/-- Run a schedule (a list of thread ids, each performing its next action). -/
def raceRun (sched : List Nat) (s : RaceState) : RaceState :=
  sched.foldl raceStep s

/-- The state before either submitter for a fresh `ProjectVersion` key has
run: the key is absent from `memo_version_metadata`, nothing has been
submitted, and neither the worker-side submitter (thread 0) nor the
drain-side submitter (thread 1) has executed an action yet. -/
def raceStart : RaceState :=
  { memoHas := false, submits := 0, pcs := [0, 0] }

/-- The schedules the source admits for one `ProjectVersion` key: every
action of the worker-side submitter (thread 0) precedes every action of the
drain-side submitter (thread 1), because the drain performs its membership
check only after `memo_fetch[name].result()` has returned and the
worker-side check-then-insert ran inside that same future (see the section
comment above). -/
def futureOrderedSchedule (sched : List Nat) : Prop :=
  ∃ sw sd, sched = sw ++ sd ∧ (∀ t ∈ sw, t = 0) ∧ (∀ t ∈ sd, t = 1)

/-! ## Concrete instances used by witnesses and counterexamples -/

/-- A requirement with an empty specifier set and no extras or marker. -/
def reqAll : Requirement :=
  { name := "p", extras := [], specifier := Specifier.all, marker := none }

/-- A callback that knows no current versions
(`_all_current_versions_unknown`). -/
def cbNone : VersionCallback := fun _ => none

/-- A callback reporting current version 1 for every project. -/
def cbOne : VersionCallback := fun _ => some 1

/-- A single release, version 1, whose `requires_python` admits no
interpreter at all. -/
def cexProject : Project :=
  { name := "p",
    versions := [(1, { version := 1, requires_python := some (Specifier.ltV 0) })] }

/-- Two releases, versions 1 and 2, with no `requires_python`. -/
def twoVerProject : Project :=
  { name := "p",
    versions := [(1, { version := 1, requires_python := none }),
                 (2, { version := 2, requires_python := none })] }

/-- A release of `twoVerProject`-style projects, for the demo walk. -/
def demoPV (v : Version) : ProjectVersion :=
  { version := v, requires_python := none }

/-- A plain requirement on a given name admitting versions above 0. -/
def demoReq (n : String) (s : Specifier) : Requirement :=
  { name := n, extras := [], specifier := s, marker := none }

/-- Demo walk setup: every project has versions 1 and 2; version 2 of any
project depends on `b`, version 1 has no dependencies. -/
def demoSetup : WalkSetup :=
  { python_full_version := 3,
    current_version_callback := cbNone,
    fetchProject := fun n => { name := n, versions := [(1, demoPV 1), (2, demoPV 2)] },
    getDeps := fun t =>
      { reqs := if t.version == 2 then [demoReq "b" (Specifier.gtV 0)] else [],
        extras := [], has_sdist := true, has_wheel := true } }

/-- Demo seed: feed `a` (any version) and then `a == 1`, like the
`batman batman==1` conflict scenario of the test suite. -/
def demoSeed : WalkerState :=
  Walker.feed (Walker.feed initialWalkerState (demoReq "a" Specifier.all) "arg")
    (demoReq "a" (Specifier.eqV 1)) "arg"

/-- The state after draining the demo seed (total when the fuel suffices; the
fallback branch is never taken). -/
def demoFinal : WalkerState :=
  (Walker.drain demoSetup 10 demoSeed).toOption.getD initialWalkerState

/-- The predicate "this stripped line is a plain requirement line": neither
blank nor a section header.  Used to state the `requires.txt` translation
claims. -/
def plainLine (l : String) : Bool :=
  pyStrip l != "" && !isHeaderLine (pyStrip l)

/-- The conflict-table invariant maintained by the drain loop, stated over
the ghost `chosenLog`: every logged version of a name that has a conflict
entry is in that entry; the currently chosen version is logged; a name with
a conflict entry has a chosen version; and for a name without an entry, all
logged versions equal the currently chosen one. -/
def ConflictInv (s : WalkerState) : Prop :=
  (∀ n v, (n, v) ∈ s.chosenLog → ∀ vs, lookupAssoc s.known_conflicts n = some vs → v ∈ vs) ∧
  (∀ n c, lookupAssoc s.chosen n = some c → (n, c) ∈ s.chosenLog) ∧
  (∀ n vs, lookupAssoc s.known_conflicts n = some vs → ∃ c, lookupAssoc s.chosen n = some c) ∧
  (∀ n w, (n, w) ∈ s.chosenLog → lookupAssoc s.known_conflicts n = none →
    lookupAssoc s.chosen n = some w)

/-! ## Helper lemmas -/

theorem getLastD_irrel {α : Type} :
    ∀ (l : List α), l ≠ [] → ∀ d d' : α, l.getLastD d = l.getLastD d'
  | [], h => absurd rfl h
  | [_], _ => fun _ _ => rfl
  | a :: b :: t, _ => fun d d' => by
      rw [List.getLastD_cons d a (b :: t),
        List.getLastD_cons d' a (b :: t)]

theorem getLastD_mem {α : Type} :
    ∀ (l : List α) (d : α), l ≠ [] → l.getLastD d ∈ l
  | [], _, h => absurd rfl h
  | [a], d, _ => by simp [List.getLastD_cons]
  | a :: b :: t, d, _ => by
      rw [List.getLastD_cons]
      exact List.mem_cons_of_mem a (getLastD_mem (b :: t) a (by simp))

theorem sorted_getLastD {α : Type} {r : α → α → Prop} (d : α) (l : List α) :
    l.Sorted r → ∀ x ∈ l, x = l.getLastD d ∨ r x (l.getLastD d) := by
  induction l with
  | nil => intro _ x hx; cases hx
  | cons a t ih =>
    intro hs x hx
    rcases List.sorted_cons.1 hs with ⟨hall, hst⟩
    cases t with
    | nil =>
      simp only [List.mem_singleton] at hx
      subst hx
      left
      rfl
    | cons b t2 =>
      have hlcons : (a :: b :: t2).getLastD d = (b :: t2).getLastD d := by
        rw [List.getLastD_cons d a (b :: t2)]
        exact getLastD_irrel _ (by simp) a d
      rcases List.mem_cons.1 hx with rfl | hxbt
      · right
        rw [hlcons]
        exact hall _ (getLastD_mem _ d (by simp))
      · rw [hlcons]
        exact ih hst x hxbt

theorem pyEnumerateFrom_mem {α : Type} :
    ∀ (l : List α) (n i : Nat) (a : α), (i, a) ∈ pyEnumerateFrom n l → a ∈ l
  | [], _, _, _, h => absurd h (List.not_mem_nil _)
  | b :: t, n, i, a, h => by
      simp only [pyEnumerateFrom, List.mem_cons] at h
      rcases h with h | h
      · cases h
        exact List.mem_cons_self _ _
      · exact List.mem_cons_of_mem _ (pyEnumerateFrom_mem t (n + 1) i a h)

theorem mem_pyEnumerateFrom {α : Type} :
    ∀ (l : List α) (n : Nat) (a : α), a ∈ l → ∃ i, (i, a) ∈ pyEnumerateFrom n l
  | [], _, _, h => absurd h (List.not_mem_nil _)
  | b :: t, n, a, h => by
      rcases List.mem_cons.1 h with h | h
      · subst h
        exact ⟨n, List.mem_cons_self _ _⟩
      · obtain ⟨i, hi⟩ := mem_pyEnumerateFrom t (n + 1) a h
        exact ⟨i, List.mem_cons_of_mem _ hi⟩

theorem bestOf_key_mem (ac cur : Option Version) (l : List Version) (h : l ≠ []) :
    ∃ i p, p ∈ l ∧
      ((List.insertionSort SortKeyR ((pyEnumerate l).map
          (fun ip => (decide (ac = some ip.2), decide (cur = some ip.2), ip.1, ip.2)))).getLastD
        (false, false, 0, 0)) =
        (decide (ac = some p), decide (cur = some p), i, p) := by
  have hne : (pyEnumerate l).map
      (fun ip => (decide (ac = some ip.2), decide (cur = some ip.2), ip.1, ip.2)) ≠ [] := by
    intro hemp
    rcases l with _ | ⟨a, t⟩
    · exact h rfl
    · simp [pyEnumerate, pyEnumerateFrom] at hemp
  have hperm := List.perm_insertionSort SortKeyR ((pyEnumerate l).map
    (fun ip => (decide (ac = some ip.2), decide (cur = some ip.2), ip.1, ip.2)))
  have hsne : (List.insertionSort SortKeyR ((pyEnumerate l).map
      (fun ip => (decide (ac = some ip.2), decide (cur = some ip.2), ip.1, ip.2)))) ≠ [] := by
    intro hemp
    have hlen := hperm.length_eq
    rw [hemp] at hlen
    exact hne (List.length_eq_zero.mp hlen.symm)
  have hmem := getLastD_mem _ ((false, false, 0, 0) : SortKey) hsne
  have hmem2 := hperm.mem_iff.mp hmem
  rcases List.mem_map.1 hmem2 with ⟨ip, hip, heq⟩
  exact ⟨ip.1, ip.2, pyEnumerateFrom_mem l 0 ip.1 ip.2 hip, heq.symm⟩

theorem bestOf_eq_last (ac cur : Option Version) (l : List Version) :
    bestOf ac cur l = ((List.insertionSort SortKeyR ((pyEnumerate l).map
        (fun ip => (decide (ac = some ip.2), decide (cur = some ip.2), ip.1, ip.2)))).getLastD
      (false, false, 0, 0)).2.2.2 := rfl

theorem bestOf_mem (ac cur : Option Version) (l : List Version) (h : l ≠ []) :
    bestOf ac cur l ∈ l := by
  obtain ⟨i, p, hp, heq⟩ := bestOf_key_mem ac cur l h
  rw [bestOf_eq_last, heq]
  exact hp

theorem bestOf_dominated (ac cur : Option Version) (l : List Version) (x : SortKey)
    (hx : x ∈ (pyEnumerate l).map
      (fun ip => (decide (ac = some ip.2), decide (cur = some ip.2), ip.1, ip.2))) :
    x = ((List.insertionSort SortKeyR ((pyEnumerate l).map
          (fun ip => (decide (ac = some ip.2), decide (cur = some ip.2), ip.1, ip.2)))).getLastD
        (false, false, 0, 0)) ∨
    SortKeyR x ((List.insertionSort SortKeyR ((pyEnumerate l).map
          (fun ip => (decide (ac = some ip.2), decide (cur = some ip.2), ip.1, ip.2)))).getLastD
        (false, false, 0, 0)) := by
  have hperm := List.perm_insertionSort SortKeyR ((pyEnumerate l).map
    (fun ip => (decide (ac = some ip.2), decide (cur = some ip.2), ip.1, ip.2)))
  have hsorted := List.sorted_insertionSort SortKeyR ((pyEnumerate l).map
    (fun ip => (decide (ac = some ip.2), decide (cur = some ip.2), ip.1, ip.2)))
  have hx2 : x ∈ List.insertionSort SortKeyR ((pyEnumerate l).map
      (fun ip => (decide (ac = some ip.2), decide (cur = some ip.2), ip.1, ip.2))) :=
    (List.Perm.mem_iff hperm.symm).mp hx
  exact sorted_getLastD _ _ hsorted x hx2

theorem bestOf_already (ac cur : Option Version) (l : List Version) (a : Version)
    (hac : ac = some a) (ha : a ∈ l) : bestOf ac cur l = a := by
  obtain ⟨i, p, hp, heq⟩ := bestOf_key_mem ac cur l (by intro hemp; rw [hemp] at ha; cases ha)
  obtain ⟨j, hj⟩ := mem_pyEnumerateFrom l 0 a ha
  have hjk : ((decide (ac = some a), decide (cur = some a), j, a) : SortKey) ∈
      (pyEnumerate l).map
        (fun ip => (decide (ac = some ip.2), decide (cur = some ip.2), ip.1, ip.2)) :=
    List.mem_map.2 ⟨(j, a), hj, rfl⟩
  have hdom := bestOf_dominated ac cur l _ hjk
  rw [bestOf_eq_last, heq]
  rw [heq] at hdom
  have haca : decide (ac = some a) = true := by
    simp only [decide_eq_true_eq]
    exact hac
  rcases hdom with heq2 | hlt
  · have := congrArg (fun k : SortKey => k.2.2.2) heq2
    simpa using this.symm
  · rcases hlt with h1 | ⟨h1, _⟩
    · rw [haca] at h1
      cases hdec : decide (ac = some p) <;> rw [hdec] at h1 <;> simp [Bool.toNat] at h1
    · rw [haca] at h1
      have hacp : ac = some p := by
        have := h1.symm
        simp only [decide_eq_true_eq] at this
        exact this
      rw [hac] at hacp
      show p = a
      exact (Option.some_inj.1 hacp).symm

theorem bestOf_current (ac cur : Option Version) (l : List Version) (c : Version)
    (hnac : ∀ p ∈ l, ¬ac = some p) (hcur : cur = some c) (hc : c ∈ l) :
    bestOf ac cur l = c := by
  obtain ⟨i, p, hp, heq⟩ := bestOf_key_mem ac cur l (by intro hemp; rw [hemp] at hc; cases hc)
  obtain ⟨j, hj⟩ := mem_pyEnumerateFrom l 0 c hc
  have hjk : ((decide (ac = some c), decide (cur = some c), j, c) : SortKey) ∈
      (pyEnumerate l).map
        (fun ip => (decide (ac = some ip.2), decide (cur = some ip.2), ip.1, ip.2)) :=
    List.mem_map.2 ⟨(j, c), hj, rfl⟩
  have hdom := bestOf_dominated ac cur l _ hjk
  rw [bestOf_eq_last, heq]
  rw [heq] at hdom
  have hacc : decide (ac = some c) = false := by
    simp only [decide_eq_false_iff_not]
    exact hnac c hc
  have hacp : decide (ac = some p) = false := by
    simp only [decide_eq_false_iff_not]
    exact hnac p hp
  have hcurc : decide (cur = some c) = true := by
    simp only [decide_eq_true_eq]
    exact hcur
  rcases hdom with heq2 | hlt
  · have := congrArg (fun k : SortKey => k.2.2.2) heq2
    simpa using this.symm
  · rcases hlt with h1 | ⟨_, h2 | ⟨h2, _⟩⟩
    · rw [hacc, hacp] at h1
      simp [Bool.toNat] at h1
    · rw [hcurc] at h2
      cases hdec : decide (cur = some p) <;> rw [hdec] at h2 <;> simp [Bool.toNat] at h2
    · rw [hcurc] at h2
      have hcurp : cur = some p := by
        have := h2.symm
        simp only [decide_eq_true_eq] at this
        exact this
      rw [hcur] at hcurp
      show p = c
      exact (Option.some_inj.1 hcurp).symm

theorem surviving_subset_pool (project : Project) (req : Requirement)
    (python_version : Version) (ac : Option Version) (cb : VersionCallback) (p : Version)
    (hp : p ∈ surviving_candidates project req python_version ac cb) :
    p ∈ candidate_pool project req python_version ac cb ∧ req.specifier.admits p = true := by
  unfold surviving_candidates Specifier.filterVersions at hp
  exact ⟨(List.mem_filter.1 hp).1, (List.mem_filter.1 hp).2⟩

theorem pool_nonempty_of_surviving (project : Project) (req : Requirement)
    (python_version : Version) (ac : Option Version) (cb : VersionCallback)
    (h : surviving_candidates project req python_version ac cb ≠ []) :
    candidate_pool project req python_version ac cb ≠ [] := by
  intro hpool
  apply h
  unfold surviving_candidates Specifier.filterVersions
  rw [hpool]
  rfl

theorem find_best_ok_of_surviving (project : Project) (req : Requirement)
    (python_version : Version) (ac : Option Version) (cb : VersionCallback)
    (h : surviving_candidates project req python_version ac cb ≠ []) :
    find_best_compatible_version project req python_version ac cb =
      Except.ok (bestOf ac (cb project.name)
        (surviving_candidates project req python_version ac cb)) := by
  have hpool := pool_nonempty_of_surviving project req python_version ac cb h
  unfold find_best_compatible_version
  rw [if_neg (by simpa [List.isEmpty_iff] using hpool)]
  rw [if_neg (by simpa [List.isEmpty_iff] using h)]

theorem find_best_error_of_no_surviving (project : Project) (req : Requirement)
    (python_version : Version) (ac : Option Version) (cb : VersionCallback)
    (h : surviving_candidates project req python_version ac cb = []) :
    ∃ e, find_best_compatible_version project req python_version ac cb = Except.error e := by
  unfold find_best_compatible_version
  by_cases hpool : (candidate_pool project req python_version ac cb).isEmpty = true
  · rw [if_pos hpool]
    cases hm : (initial_filtered project req).isEmpty
    · simp only [hm, Bool.not_false, if_true]
      exact ⟨_, rfl⟩
    · simp only [hm, Bool.not_true, Bool.false_eq_true, if_false]
      exact ⟨_, rfl⟩
  · rw [if_neg hpool]
    rw [if_pos (by simpa [List.isEmpty_iff] using h)]
    by_cases hk : (req.specifier.filterVersions project.versionKeys).isEmpty = true
    · rw [if_pos hk]
      exact ⟨_, rfl⟩
    · rw [if_neg hk]
      exact ⟨_, rfl⟩

theorem find_best_ok_inv (project : Project) (req : Requirement)
    (python_version : Version) (ac : Option Version) (cb : VersionCallback) (v : Version)
    (hok : find_best_compatible_version project req python_version ac cb = Except.ok v) :
    surviving_candidates project req python_version ac cb ≠ [] ∧
      v = bestOf ac (cb project.name)
        (surviving_candidates project req python_version ac cb) := by
  by_cases h : surviving_candidates project req python_version ac cb = []
  · obtain ⟨e, he⟩ := find_best_error_of_no_surviving project req python_version ac cb h
    rw [he] at hok
    cases hok
  · have := find_best_ok_of_surviving project req python_version ac cb h
    rw [this] at hok
    exact ⟨h, (Except.ok.inj hok).symm⟩

theorem mem_callback_candidates (project : Project) (python_version : Version)
    (cb : VersionCallback) (p : Version)
    (hp : p ∈ callback_candidates project python_version cb) :
    cb project.name = some p := by
  unfold callback_candidates at hp
  split at hp
  · cases hp
  · next c heq =>
    split at hp
    · split at hp
      · simp only [List.mem_singleton] at hp
        rw [hp]
        exact heq
      · cases hp
    · simp only [List.mem_singleton] at hp
      rw [hp]
      exact heq

theorem mem_candidate_pool (project : Project) (req : Requirement)
    (python_version : Version) (ac : Option Version) (cb : VersionCallback) (p : Version)
    (hp : p ∈ candidate_pool project req python_version ac cb) :
    initial_candidate project req python_version = some p ∨
      cb project.name = some p ∨ ac = some p := by
  unfold candidate_pool at hp
  rcases List.mem_append.1 hp with hp1 | hp2
  · rcases List.mem_append.1 hp1 with hic | hcc
    · left
      exact Option.mem_def.mp (Option.mem_toList.mp hic)
    · right
      left
      exact mem_callback_candidates project python_version cb p hcc
  · right
    right
    exact Option.mem_def.mp (Option.mem_toList.mp hp2)

theorem initial_candidate_rpm (project : Project) (req : Requirement)
    (python_version : Version) (p : Version)
    (h : initial_candidate project req python_version = some p) :
    requires_python_match project python_version p = true := by
  unfold initial_candidate at h
  exact List.find?_some h

theorem initial_candidate_admits (project : Project) (req : Requirement)
    (python_version : Version) (p : Version)
    (h : initial_candidate project req python_version = some p) :
    req.specifier.admits p = true := by
  unfold initial_candidate at h
  have hmem := List.mem_of_find?_eq_some h
  unfold initial_filtered Specifier.filterVersions at hmem
  exact (List.mem_filter.1 hmem).2

theorem initial_filtered_eq_nil_iff (project : Project) (req : Requirement) :
    (initial_filtered project req = []) ↔
      (req.specifier.filterVersions project.versionKeys = []) := by
  unfold initial_filtered Specifier.filterVersions
  rw [List.filter_reverse, List.reverse_eq_nil_iff]

/-! ## Claim C1 -/

/-- Claim C1, amended: if `find_best_compatible_version` returns `V` for a
project with a non-empty versions map, then the requirement's specifier
admits `V`, and either `V`'s `requires_python` is absent or admits the
environment's full Python version, or `V` is the callback's current version,
or `V` equals `already_chosen`.  (The last disjunct is the amendment: an
`already_chosen` version failing the `requires_python` check can be
returned, see the counterexample.) -/
theorem selector_result_admitted_and_python_ok
    (project : Project) (req : Requirement) (python_version : Version)
    (ac : Option Version) (cb : VersionCallback) (v : Version)
    (hne : project.versions ≠ [])
    (hok : find_best_compatible_version project req python_version ac cb = Except.ok v) :
    req.specifier.admits v = true ∧
      (requires_python_match project python_version v = true ∨
        cb project.name = some v ∨ ac = some v) := by
  obtain ⟨hS, hv⟩ := find_best_ok_inv project req python_version ac cb v hok
  have hmem : v ∈ surviving_candidates project req python_version ac cb := by
    rw [hv]
    exact bestOf_mem _ _ _ hS
  obtain ⟨hpool, hadm⟩ := surviving_subset_pool project req python_version ac cb v hmem
  refine ⟨hadm, ?_⟩
  rcases mem_candidate_pool project req python_version ac cb v hpool with hic | hcb | hac
  · exact Or.inl (initial_candidate_rpm project req python_version v hic)
  · exact Or.inr (Or.inl hcb)
  · exact Or.inr (Or.inr hac)

/-- Claim C1, counterexample to the claim as stated: for `cexProject` (whose
only release, version 1, has a `requires_python` admitting no interpreter),
an empty requirement, interpreter 3, `already_chosen = 1` and a callback
with no current version, the selector returns 1, yet 1 fails the
`requires_python` check and is not the callback's current version. -/
theorem selector_result_python_ok_counterexample :
    find_best_compatible_version cexProject reqAll 3 (some 1) cbNone = Except.ok 1 ∧
    cexProject.versions ≠ [] ∧
    requires_python_match cexProject 3 1 = false ∧
    ¬cbNone cexProject.name = some 1 := by
  decide

/-- Witness for C1's amended theorem at a concrete input. -/
theorem selector_result_admitted_and_python_ok_witness :
    reqAll.specifier.admits 1 = true ∧
      (requires_python_match twoVerProject 3 1 = true ∨
        cbOne twoVerProject.name = some 1 ∨ (none : Option Version) = some 1) :=
  selector_result_admitted_and_python_ok twoVerProject reqAll 3 none cbOne 1
    (by decide) (by decide)

/-! ## Claim C2 -/

/-- Claim C2: when exactly two candidates `v1 < v2` survive the selector's
filtering, the selector returns `v1` if `already_chosen = v1`; otherwise
`v1` if the callback's current version is `v1` and neither candidate equals
`already_chosen`; otherwise `v2` — the last element of the ascending sort on
the composite key `(equals already_chosen, equals current, index, version)`. -/
theorem selector_tiebreak
    (project : Project) (req : Requirement) (python_version : Version)
    (ac : Option Version) (cb : VersionCallback) (v1 v2 : Version)
    (hlt : v1 < v2)
    (h1 : v1 ∈ surviving_candidates project req python_version ac cb)
    (h2 : v2 ∈ surviving_candidates project req python_version ac cb)
    (honly : ∀ x ∈ surviving_candidates project req python_version ac cb, x = v1 ∨ x = v2) :
    find_best_compatible_version project req python_version ac cb =
      Except.ok (if ac = some v1 then v1
        else if cb project.name = some v1 ∧ ¬ac = some v1 ∧ ¬ac = some v2 then v1
        else v2) := by
  have hS : surviving_candidates project req python_version ac cb ≠ [] := by
    intro hemp
    rw [hemp] at h1
    cases h1
  rw [find_best_ok_of_surviving project req python_version ac cb hS]
  congr 1
  by_cases hacv1 : ac = some v1
  · rw [if_pos hacv1]
    exact bestOf_already ac (cb project.name) _ v1 hacv1 h1
  · rw [if_neg hacv1]
    by_cases hacv2 : ac = some v2
    · rw [if_neg (fun hcond => hcond.2.2 hacv2)]
      exact bestOf_already ac (cb project.name) _ v2 hacv2 h2
    · have hnac : ∀ p ∈ surviving_candidates project req python_version ac cb, ¬ac = some p := by
        intro p hpmem hacp
        rcases honly p hpmem with rfl | rfl
        · exact hacv1 hacp
        · exact hacv2 hacp
      by_cases hcbv1 : cb project.name = some v1
      · rw [if_pos ⟨hcbv1, hacv1, hacv2⟩]
        exact bestOf_current ac (cb project.name) _ v1 hnac hcbv1 h1
      · rw [if_neg (fun hcond => hcbv1 hcond.1)]
        by_cases hcbv2 : cb project.name = some v2
        · exact bestOf_current ac (cb project.name) _ v2 hnac hcbv2 h2
        · exfalso
          obtain ⟨hp1, _⟩ := surviving_subset_pool project req python_version ac cb v1 h1
          obtain ⟨hp2, _⟩ := surviving_subset_pool project req python_version ac cb v2 h2
          rcases mem_candidate_pool project req python_version ac cb v1 hp1 with hi1 | hc1 | ha1
          · rcases mem_candidate_pool project req python_version ac cb v2 hp2 with hi2 | hc2 | ha2
            · have hvv : v1 = v2 := Option.some_inj.1 (hi1.symm.trans hi2)
              exact Nat.ne_of_lt hlt hvv
            · exact hcbv2 hc2
            · exact hacv2 ha2
          · exact hcbv1 hc1
          · exact hacv1 ha1

/-- Witness for C2 at a concrete input: survivors `{1, 2}`, callback current
version 1, nothing already chosen, so the selector returns 1. -/
theorem selector_tiebreak_witness :
    find_best_compatible_version twoVerProject reqAll 3 none cbOne =
      Except.ok (if (none : Option Version) = some 1 then 1
        else if cbOne twoVerProject.name = some 1 ∧ ¬(none : Option Version) = some 1 ∧
            ¬(none : Option Version) = some 2 then 1
        else 2) :=
  selector_tiebreak twoVerProject reqAll 3 none cbOne 1 2
    (by decide) (by decide) (by decide) (by decide)

/-! ## Claim C3 -/

/-- Claim C3: `find_best_compatible_version` fails if and only if no
candidate survives, where "no candidate survives" decomposes as: no release
passes both the specifier and the `requires_python` check, no admissible
callback version passes the final specifier re-filter, and no
`already_chosen` version passes the final specifier re-filter; and when it
fails, the message mentions interpreter compatibility exactly when the
specifier admits at least one release. -/
theorem selector_failure_iff_no_survivor
    (project : Project) (req : Requirement) (python_version : Version)
    (ac : Option Version) (cb : VersionCallback) :
    ((∃ e, find_best_compatible_version project req python_version ac cb = Except.error e) ↔
      surviving_candidates project req python_version ac cb = []) ∧
    (surviving_candidates project req python_version ac cb = [] ↔
      (initial_candidate project req python_version = none ∧
        (callback_candidates project python_version cb).filter req.specifier.admits = [] ∧
        ac.toList.filter req.specifier.admits = [])) ∧
    (initial_candidate project req python_version = none ↔
      project.versionKeys.filter
        (fun v => req.specifier.admits v && requires_python_match project python_version v) = []) ∧
    (∀ e, find_best_compatible_version project req python_version ac cb = Except.error e →
      (e.mentionsPythonCompatibility = true ↔
        ¬req.specifier.filterVersions project.versionKeys = [])) := by
  refine ⟨⟨?_, ?_⟩, ?_, ?_, ?_⟩
  · rintro ⟨e, he⟩
    by_contra hS
    rw [find_best_ok_of_surviving project req python_version ac cb hS] at he
    cases he
  · intro hS
    exact find_best_error_of_no_surviving project req python_version ac cb hS
  · unfold surviving_candidates Specifier.filterVersions candidate_pool
    rw [List.filter_append, List.filter_append, List.append_eq_nil, List.append_eq_nil]
    constructor
    · rintro ⟨⟨hic, hcc⟩, hac⟩
      refine ⟨?_, hcc, hac⟩
      rcases h : initial_candidate project req python_version with _ | w
      · rfl
      · exfalso
        rw [h] at hic
        have hadm := initial_candidate_admits project req python_version w h
        simp [hadm] at hic
    · rintro ⟨hic, hcc, hac⟩
      rw [hic]
      exact ⟨⟨rfl, hcc⟩, hac⟩
  · constructor
    · intro h
      rw [List.filter_eq_nil_iff]
      intro v hv hboth
      rw [Bool.and_eq_true] at hboth
      have hvif : v ∈ initial_filtered project req := by
        unfold initial_filtered Specifier.filterVersions
        exact List.mem_filter.2 ⟨List.mem_reverse.2 hv, hboth.1⟩
      unfold initial_candidate at h
      exact (List.find?_eq_none.1 h v hvif) hboth.2
    · intro h
      unfold initial_candidate
      rw [List.find?_eq_none]
      intro x hx hrpm
      unfold initial_filtered Specifier.filterVersions at hx
      have hmf := List.mem_filter.1 hx
      have hxk : x ∈ project.versionKeys := List.mem_reverse.1 hmf.1
      have := List.filter_eq_nil_iff.1 h x hxk
      apply this
      rw [Bool.and_eq_true]
      exact ⟨hmf.2, hrpm⟩
  · intro e he
    unfold find_best_compatible_version at he
    by_cases hpool : (candidate_pool project req python_version ac cb).isEmpty = true
    · rw [if_pos hpool] at he
      cases hm : (initial_filtered project req).isEmpty
      · rw [hm] at he
        simp only [Bool.not_false, if_true] at he
        have he2 := (Except.error.inj he).symm
        subst he2
        simp only [NoMatchingRelease.mentionsPythonCompatibility, true_iff]
        intro hk
        rw [← initial_filtered_eq_nil_iff] at hk
        rw [List.isEmpty_eq_false] at hm
        exact hm hk
      · rw [hm] at he
        simp only [Bool.not_true, Bool.false_eq_true, if_false] at he
        have he2 := (Except.error.inj he).symm
        subst he2
        simp only [NoMatchingRelease.mentionsPythonCompatibility, Bool.false_eq_true, false_iff]
        rw [List.isEmpty_iff] at hm
        rw [← initial_filtered_eq_nil_iff]
        intro hk
        exact hk hm
    · rw [if_neg hpool] at he
      by_cases hS : (surviving_candidates project req python_version ac cb).isEmpty = true
      · rw [if_pos hS] at he
        cases hk : (req.specifier.filterVersions project.versionKeys).isEmpty
        · rw [hk] at he
          simp only [Bool.false_eq_true, if_false] at he
          have he2 := (Except.error.inj he).symm
          subst he2
          simp only [NoMatchingRelease.mentionsPythonCompatibility, true_iff]
          rw [List.isEmpty_eq_false] at hk
          exact hk
        · rw [hk] at he
          simp only [if_true] at he
          have he2 := (Except.error.inj he).symm
          subst he2
          simp only [NoMatchingRelease.mentionsPythonCompatibility, Bool.false_eq_true, false_iff]
          rw [List.isEmpty_iff] at hk
          intro hne2
          exact hne2 hk
      · rw [if_neg hS] at he
        cases he

/-- Witness for C3 at a concrete input: the project whose only release has a
`requires_python` admitting nothing, with nothing already chosen and no
callback version, so the selector fails; the derived facts are read off the
theorem. -/
theorem selector_failure_iff_no_survivor_witness :
    surviving_candidates cexProject reqAll 3 none cbNone = [] ∧
    (NoMatchingRelease.noCompatibleRelease 3).mentionsPythonCompatibility = true := by
  have h := selector_failure_iff_no_survivor cexProject reqAll 3 none cbNone
  constructor
  · exact h.1.mp ⟨NoMatchingRelease.noCompatibleRelease 3, by decide⟩
  · exact (h.2.2.2 (NoMatchingRelease.noCompatibleRelease 3) (by decide)).mpr (by decide)

/-! ## Claim C7 -/

/-- Claim C7: the post-construction coherence rules of
`EnvironmentMarkers.__post_init__` (win32 → Windows/nt, darwin → Darwin,
linux with a python 2 version → linux2, anything else fails), and the
version handling of `from_args` ("3.11.2" yields python_version "3.11" and
python_full_version "3.11.2"; "3.11" behaves as "3.11.0"). -/
theorem environment_markers_coherence :
    (∀ e : EnvironmentMarkers, e.sys_platform = "win32" →
      e.postInit = Except.ok { e with platform_system := "Windows", os_name := "nt" }) ∧
    (∀ e : EnvironmentMarkers, e.sys_platform = "darwin" →
      e.postInit = Except.ok { e with platform_system := "Darwin" }) ∧
    (∀ e : EnvironmentMarkers, ∀ pv : String, e.sys_platform = "linux" →
      e.python_version = some pv → pyStartsWithChar pv '2' = true →
      e.postInit = Except.ok { e with sys_platform := "linux2" }) ∧
    (∀ e : EnvironmentMarkers, ¬e.sys_platform = "linux" → ¬e.sys_platform = "win32" →
      ¬e.sys_platform = "darwin" →
      e.postInit = Except.error (InvalidEnvironmentKind.unknownSysPlatform e.sys_platform)) ∧
    (∀ host : String,
      EnvironmentMarkers.from_args (some "3.11.2") none host =
        Except.ok { python_version := some "3.11", python_full_version := some "3.11.2" }) ∧
    (∀ sp : Option String, ∀ host : String,
      EnvironmentMarkers.from_args (some "3.11") sp host =
        EnvironmentMarkers.from_args (some "3.11.0") sp host) := by
  refine ⟨?_, ?_, ?_, ?_, ?_, ?_⟩
  · intro e h
    unfold EnvironmentMarkers.postInit
    rw [if_neg (by rw [h]; decide), if_pos (by rw [h]; rfl)]
  · intro e h
    unfold EnvironmentMarkers.postInit
    rw [if_neg (by rw [h]; decide), if_neg (by rw [h]; decide), if_pos (by rw [h]; rfl)]
  · intro e pv hplat hpv hstart
    unfold EnvironmentMarkers.postInit
    rw [if_pos (by rw [hplat]; rfl)]
    rw [if_pos ?_]
    rw [hpv]
    simp only [Option.getD_some, Bool.and_eq_true]
    constructor
    · unfold pyTruthy
      cases hl : pv.toList with
      | nil =>
        unfold pyStartsWithChar at hstart
        rw [hl] at hstart
        cases hstart
      | cons c t =>
        have : pv ≠ "" := by
          intro hemp
          rw [hemp] at hl
          cases hl
        simp [this]
    · exact hstart
  · intro e h1 h2 h3
    unfold EnvironmentMarkers.postInit
    rw [if_neg (by simpa using h1), if_neg (by simpa using h2), if_neg (by simpa using h3)]
  · intro host
    rfl
  · intro sp host
    rfl

/-- Witness for C7 at concrete inputs. -/
theorem environment_markers_coherence_witness :
    ({ sys_platform := "win32" : EnvironmentMarkers }).postInit =
      Except.ok { sys_platform := "win32", platform_system := "Windows", os_name := "nt" } ∧
    ({ sys_platform := "darwin" : EnvironmentMarkers }).postInit =
      Except.ok { sys_platform := "darwin", platform_system := "Darwin" } ∧
    ({ sys_platform := "linux", python_version := some "2.7" : EnvironmentMarkers }).postInit =
      Except.ok { sys_platform := "linux2", python_version := some "2.7" } ∧
    ({ sys_platform := "freebsd" : EnvironmentMarkers }).postInit =
      Except.error (InvalidEnvironmentKind.unknownSysPlatform "freebsd") ∧
    EnvironmentMarkers.from_args (some "3.11.2") none "3.12.0" =
      Except.ok { python_version := some "3.11", python_full_version := some "3.11.2" } ∧
    EnvironmentMarkers.from_args (some "3.11") (some "darwin") "3.12.0" =
      EnvironmentMarkers.from_args (some "3.11.0") (some "darwin") "3.12.0" := by
  have h := environment_markers_coherence
  refine ⟨?_, ?_, ?_, ?_, ?_, ?_⟩
  · exact h.1 _ rfl
  · exact h.2.1 _ rfl
  · exact h.2.2.1 _ "2.7" rfl rfl (by decide)
  · exact h.2.2.2.1 _ (by decide) (by decide) (by decide)
  · exact h.2.2.2.2.1 "3.12.0"
  · exact h.2.2.2.2.2 (some "darwin") "3.12.0"

/-! ## Claim C6 -/

theorem fsRead_fsWrite_same (fs : FileSystem) (p : CachePath) (v : List Nat) :
    fsRead (fsWrite fs p v) p = some v := by
  induction fs with
  | nil => simp [fsWrite, fsRead, List.find?]
  | cons e rest ih =>
    unfold fsWrite
    by_cases h : e.1 == p
    · rw [if_pos h]
      simp [fsRead, List.find?]
    · rw [if_neg h]
      unfold fsRead at ih ⊢
      have hstep : List.find? (fun q => q.1 == p) (e :: fsWrite rest p v) =
          List.find? (fun q => q.1 == p) (fsWrite rest p v) :=
        List.find?_cons_of_neg _ h
      rw [hstep]
      exact ih

theorem fsRead_untouched (fs : FileSystem) (p : CachePath)
    (h : ∀ e ∈ fs, ¬e.1 = p) : fsRead fs p = none := by
  unfold fsRead
  rw [List.find?_eq_none.2]
  · rfl
  · intro e he
    simpa using h e he

/-- Claim C6: `set` then `get` on the same key returns the stored value;
`get` on a key never set (in particular, on an empty cache directory)
returns absent; and the derived path is
`<root>/<h[0]>/<h[1]>/<h[2]>/<h[3]>/<h[4]>/<h>` with `h` the lowercase hex
SHA-1 of the UTF-8 encoded key. -/
theorem cache_roundtrip_and_path :
    (∀ (c : SimpleCache) (fs : FileSystem) (k : String) (v : List Nat),
      c.get (c.set fs k v) k = some v) ∧
    (∀ (c : SimpleCache) (k : String), c.get [] k = none) ∧
    (∀ (c : SimpleCache) (fs : FileSystem) (k : String),
      (∀ e ∈ fs, ¬e.1 = c.localPath k) → c.get fs k = none) ∧
    (∀ (c : SimpleCache) (k : String),
      c.localPath k =
        c.cache_path ++
          ((sha1hex (utf8Encode k)).toList.take 5).map (fun ch => String.mk [ch]) ++
          [sha1hex (utf8Encode k)]) := by
  refine ⟨?_, ?_, ?_, ?_⟩
  · intro c fs k v
    unfold SimpleCache.get SimpleCache.set
    exact fsRead_fsWrite_same fs (c.localPath k) v
  · intro c k
    rfl
  · intro c fs k h
    unfold SimpleCache.get
    exact fsRead_untouched fs (c.localPath k) h
  · intro c k
    rfl

/-- Witness for C6 at a concrete key: the full digest of `"abc"` is spelled
out, pinning the path derivation to the real SHA-1. -/
theorem cache_roundtrip_and_path_witness :
    SimpleCache.get ⟨["root"]⟩ (SimpleCache.set ⟨["root"]⟩ [] "abc" [1, 2, 3]) "abc" =
      some [1, 2, 3] ∧
    SimpleCache.get ⟨["root"]⟩ [] "abc" = none ∧
    SimpleCache.localPath ⟨["root"]⟩ "abc" =
      ["root", "a", "9", "9", "9", "3",
        "a9993e364706816aba3e25717850c26c9cd0d89d"] := by
  have h := cache_roundtrip_and_path
  refine ⟨h.1 ⟨["root"]⟩ [] "abc" [1, 2, 3], h.2.1 ⟨["root"]⟩ "abc", ?_⟩
  rw [h.2.2.2 ⟨["root"]⟩ "abc"]
  decide

/-! ## Claim C8 -/

theorem string_append_ne_empty_left (s t : String) (h : ¬s = "") : ¬s ++ t = "" := by
  intro he
  apply h
  have hd : (s ++ t).data = [] := by
    rw [he]
  rw [String.data_append] at hd
  have hs : s.data = [] := (List.append_eq_nil.1 hd).1
  cases s
  cases hs
  rfl

theorem convertLine_plain_none (st : SdistConvState) (l : String)
    (hl : plainLine l = true) (hcm : st.current_markers = none) :
    convertSdistLine st l = { st with lst := st.lst ++ [pyStrip l] } := by
  unfold plainLine at hl
  rw [Bool.and_eq_true] at hl
  have h1 : ¬pyStrip l = "" := by simpa using hl.1
  have h2 : isHeaderLine (pyStrip l) = false := by simpa using hl.2
  simp [convertSdistLine, h1, h2, hcm]

theorem convertLine_plain_some (st : SdistConvState) (l : String) (cm : String)
    (hl : plainLine l = true) (hcm : st.current_markers = some cm) (hne : ¬cm = "") :
    convertSdistLine st l = { st with lst := st.lst ++ [pyStrip l ++ "; " ++ cm] } := by
  unfold plainLine at hl
  rw [Bool.and_eq_true] at hl
  have h1 : ¬pyStrip l = "" := by simpa using hl.1
  have h2 : isHeaderLine (pyStrip l) = false := by simpa using hl.2
  simp [convertSdistLine, h1, h2, hcm, hne]

theorem convertLine_header_plain (st : SdistConvState) (h : String)
    (hne : ¬pyStrip h = "") (hhd : isHeaderLine (pyStrip h) = true)
    (hnc : pyContainsChar (pyInner (pyStrip h)) ':' = false) :
    convertSdistLine st h =
      { st with current_markers := some ("extra == " ++ pyRepr (pyInner (pyStrip h))) } := by
  simp [convertSdistLine, hne, hhd, hnc]

theorem convertLine_header_colon (st : SdistConvState) (h : String)
    (foo : String) (mparts : List String)
    (hne : ¬pyStrip h = "") (hhd : isHeaderLine (pyStrip h) = true)
    (hc : pyContainsChar (pyInner (pyStrip h)) ':' = true)
    (hsplit : pySplit (pyInner (pyStrip h)) ':' = foo :: mparts) (hfoo : ¬foo = "") :
    convertSdistLine st h =
      { st with extras := setAdd st.extras foo,
                current_markers :=
                  some ("(" ++ pyJoin ':' mparts ++ ") and extra == " ++ pyRepr foo) } := by
  simp [convertSdistLine, hne, hhd, hc, hsplit, hfoo]

theorem convertLine_header_bare (st : SdistConvState) (h : String) (mparts : List String)
    (hne : ¬pyStrip h = "") (hhd : isHeaderLine (pyStrip h) = true)
    (hc : pyContainsChar (pyInner (pyStrip h)) ':' = true)
    (hsplit : pySplit (pyInner (pyStrip h)) ':' = "" :: mparts) :
    convertSdistLine st h =
      { st with current_markers := some (pyJoin ':' mparts) } := by
  simp [convertSdistLine, hne, hhd, hc, hsplit]

theorem convert_plain_none_fold (post : List String) :
    ∀ st : SdistConvState, (∀ l ∈ post, plainLine l = true) → st.current_markers = none →
    post.foldl convertSdistLine st = { st with lst := st.lst ++ post.map pyStrip } := by
  induction post with
  | nil =>
    intro st _ _
    simp
  | cons l t ih =>
    intro st hall hcm
    rw [List.foldl_cons]
    rw [convertLine_plain_none st l (hall l (List.mem_cons_self _ _)) hcm]
    rw [ih { st with lst := st.lst ++ [pyStrip l] }
      (fun x hx => hall x (List.mem_cons_of_mem _ hx)) hcm]
    simp

theorem convert_plain_some_fold (post : List String) (cm : String) (hne : ¬cm = "") :
    ∀ st : SdistConvState, (∀ l ∈ post, plainLine l = true) → st.current_markers = some cm →
    post.foldl convertSdistLine st =
      { st with lst := st.lst ++ post.map (fun l => pyStrip l ++ "; " ++ cm) } := by
  induction post with
  | nil =>
    intro st _ _
    simp
  | cons l t ih =>
    intro st hall hcm
    rw [List.foldl_cons]
    rw [convertLine_plain_some st l cm (hall l (List.mem_cons_self _ _)) hcm hne]
    rw [ih { st with lst := st.lst ++ [pyStrip l ++ "; " ++ cm] }
      (fun x hx => hall x (List.mem_cons_of_mem _ hx)) hcm]
    simp

theorem convertLine_lst_frame (st : SdistConvState) (l : String) :
    convertSdistLine st l =
      { convertSdistLine { st with lst := [] } l with
          lst := st.lst ++ (convertSdistLine { st with lst := [] } l).lst } := by
  rcases st with ⟨cm, ex, L⟩
  unfold convertSdistLine
  dsimp only
  split
  · simp
  · split
    · split
      · split
        · simp
        · split
          · simp
          · simp
      · simp
    · rcases cm with _ | cmv
      · simp
      · dsimp only
        split
        · simp
        · simp

theorem convert_fold_frame (lines : List String) :
    ∀ (cm : Option String) (ex : List String) (L : List String),
    lines.foldl convertSdistLine ⟨cm, ex, L⟩ =
      { lines.foldl convertSdistLine ⟨cm, ex, []⟩ with
          lst := L ++ (lines.foldl convertSdistLine ⟨cm, ex, []⟩).lst } := by
  induction lines with
  | nil =>
    intro cm ex L
    simp
  | cons l t ih =>
    intro cm ex L
    rw [List.foldl_cons, List.foldl_cons]
    rw [convertLine_lst_frame ⟨cm, ex, L⟩ l]
    rcases hs0 : convertSdistLine { current_markers := cm, extras := ex, lst := [] } l
      with ⟨cm1, ex1, d⟩
    dsimp only
    rw [ih cm1 ex1 (L ++ d), ih cm1 ex1 d]
    simp

/-- Claim C8: the `requires.txt` translation.  Non-empty requirement lines
before the first `[section]` header pass through (stripped) unchanged; after
`[foo]` each line gets the suffix `"; extra == 'foo'"` (no extra is
registered); after `[foo:MARKER]` each line gets
`"; (MARKER) and extra == 'foo'"` and `foo` joins the extras set; after
`[:MARKER]` each line gets `"; MARKER"` and no extra is registered. -/
theorem convert_sdist_requires_sections :
    (∀ pre rest, (∀ l ∈ pre, plainLine l = true) →
      (convert_sdist_requires_lines (pre ++ rest)).1 =
        pre.map pyStrip ++ (convert_sdist_requires_lines rest).1 ∧
      (convert_sdist_requires_lines (pre ++ rest)).2 =
        (convert_sdist_requires_lines rest).2) ∧
    (∀ hd post foo, ¬pyStrip hd = "" → isHeaderLine (pyStrip hd) = true →
      pyInner (pyStrip hd) = foo → pyContainsChar foo ':' = false →
      (∀ l ∈ post, plainLine l = true) →
      convert_sdist_requires_lines (hd :: post) =
        (post.map (fun l => pyStrip l ++ "; " ++ ("extra == " ++ pyRepr foo)), [])) ∧
    (∀ hd post foo mparts, ¬pyStrip hd = "" → isHeaderLine (pyStrip hd) = true →
      pyContainsChar (pyInner (pyStrip hd)) ':' = true →
      pySplit (pyInner (pyStrip hd)) ':' = foo :: mparts → ¬foo = "" →
      (∀ l ∈ post, plainLine l = true) →
      convert_sdist_requires_lines (hd :: post) =
        (post.map (fun l => pyStrip l ++ "; " ++
          ("(" ++ pyJoin ':' mparts ++ ") and extra == " ++ pyRepr foo)), [foo])) ∧
    (∀ hd post mparts, ¬pyStrip hd = "" → isHeaderLine (pyStrip hd) = true →
      pyContainsChar (pyInner (pyStrip hd)) ':' = true →
      pySplit (pyInner (pyStrip hd)) ':' = "" :: mparts → ¬pyJoin ':' mparts = "" →
      (∀ l ∈ post, plainLine l = true) →
      convert_sdist_requires_lines (hd :: post) =
        (post.map (fun l => pyStrip l ++ "; " ++ pyJoin ':' mparts), [])) := by
  refine ⟨?_, ?_, ?_, ?_⟩
  · intro pre rest hpre
    unfold convert_sdist_requires_lines
    rw [List.foldl_append]
    rw [convert_plain_none_fold pre _ hpre rfl]
    dsimp only
    rw [List.nil_append]
    rw [convert_fold_frame rest none [] (List.map pyStrip pre)]
    exact ⟨rfl, rfl⟩
  · intro hd post foo hne hhd hfoo hnc hpost
    unfold convert_sdist_requires_lines
    rw [List.foldl_cons]
    rw [convertLine_header_plain _ hd hne hhd (by rw [hfoo]; exact hnc)]
    rw [hfoo]
    rw [convert_plain_some_fold post _
      (string_append_ne_empty_left _ _ (by decide)) _ hpost rfl]
    simp
  · intro hd post foo mparts hne hhd hc hsplit hfoo hpost
    unfold convert_sdist_requires_lines
    rw [List.foldl_cons]
    rw [convertLine_header_colon _ hd foo mparts hne hhd hc hsplit hfoo]
    rw [convert_plain_some_fold post _
      (string_append_ne_empty_left _ _ (string_append_ne_empty_left _ _
        (string_append_ne_empty_left _ _ (by decide)))) _ hpost rfl]
    rfl
  · intro hd post mparts hne hhd hc hsplit hm
    intro hpost
    unfold convert_sdist_requires_lines
    rw [List.foldl_cons]
    rw [convertLine_header_bare _ hd mparts hne hhd hc hsplit]
    rw [convert_plain_some_fold post _ hm _ hpost rfl]
    simp

/-- Witness for C8 at concrete inputs covering all four section shapes. -/
theorem convert_sdist_requires_sections_witness :
    ((convert_sdist_requires_lines (["req1"] ++ ["[foo]", "req2"])).1 =
        ["req1"].map pyStrip ++ (convert_sdist_requires_lines ["[foo]", "req2"]).1 ∧
      (convert_sdist_requires_lines (["req1"] ++ ["[foo]", "req2"])).2 =
        (convert_sdist_requires_lines ["[foo]", "req2"]).2) ∧
    convert_sdist_requires_lines ("[foo]" :: ["req2"]) =
      (["req2"].map (fun l => pyStrip l ++ "; " ++ ("extra == " ++ pyRepr "foo")), []) ∧
    convert_sdist_requires_lines ("[foo:python_version < 3]" :: ["req3"]) =
      (["req3"].map (fun l => pyStrip l ++ "; " ++
        ("(" ++ pyJoin ':' ["python_version < 3"] ++ ") and extra == " ++ pyRepr "foo")),
        ["foo"]) ∧
    convert_sdist_requires_lines ("[:python_version < 3]" :: ["req4"]) =
      (["req4"].map (fun l => pyStrip l ++ "; " ++ pyJoin ':' ["python_version < 3"]), []) := by
  have h := convert_sdist_requires_sections
  refine ⟨h.1 ["req1"] ["[foo]", "req2"] (by decide), ?_, ?_, ?_⟩
  · exact h.2.1 "[foo]" ["req2"] "foo" (by decide) (by decide) (by decide) (by decide) (by decide)
  · exact h.2.2.1 "[foo:python_version < 3]" ["req3"] "foo" ["python_version < 3"]
      (by decide) (by decide) (by decide) (by decide) (by decide) (by decide)
  · exact h.2.2.2 "[:python_version < 3]" ["req4"] ["python_version < 3"]
      (by decide) (by decide) (by decide) (by decide) (by decide) (by decide)

/-! ## Claim C9 -/

theorem iter_fold_spec (lines : List String) :
    ∀ st : IterReqState,
    lines.foldl iterReqLine st =
      { shown_ignore_message :=
          st.shown_ignore_message ||
            lines.any (fun l => cleanLine l != "" && pyStartsWithChar (cleanLine l) '-'),
        warnings :=
          st.warnings +
            (if st.shown_ignore_message then 0
             else if lines.any (fun l => cleanLine l != "" && pyStartsWithChar (cleanLine l) '-')
             then 1 else 0),
        out := st.out ++
          ((lines.map cleanLine).filter
            (fun l => l != "" && !pyStartsWithChar l '-')) } := by
  induction lines with
  | nil =>
    intro st
    rcases st with ⟨sh, w, o⟩
    cases sh <;> simp
  | cons l t ih =>
    intro st
    rw [List.foldl_cons]
    by_cases hclean : cleanLine l = ""
    · have hstep : iterReqLine st l = st := by
        simp [iterReqLine, hclean]
      rw [hstep, ih st]
      simp [List.any_cons, List.filter_cons, hclean]
    · by_cases hdash : pyStartsWithChar (cleanLine l) '-' = true
      · cases hshown : st.shown_ignore_message
        · have hstep : iterReqLine st l =
              { st with shown_ignore_message := true, warnings := st.warnings + 1 } := by
            simp [iterReqLine, hclean, hdash, hshown]
          rw [hstep, ih _]
          simp [List.any_cons, List.filter_cons, hclean, hdash, hshown]
        · have hstep : iterReqLine st l = st := by
            simp [iterReqLine, hclean, hdash, hshown]
          rw [hstep, ih st]
          simp [List.any_cons, List.filter_cons, hclean, hdash, hshown]
      · have hstep : iterReqLine st l = { st with out := st.out ++ [cleanLine l] } := by
          simp [iterReqLine, hclean, hdash]
        rw [hstep, ih _]
        cases hshown : st.shown_ignore_message <;>
          simp [List.any_cons, List.filter_cons, hclean, hdash, hshown]

/-- Claim C9: `_iter_simple_requirements` yields one parsed requirement per
line with the `#`-comment removed and surrounding whitespace stripped;
blank (or whitespace-only) lines are skipped; lines beginning with `-` are
ignored and warn at most once per process (the `SHOWN_IGNORE_MESSAGE` latch
is monotone, so a later call warns zero times); every other line is yielded. -/
theorem iter_simple_requirements_spec :
    (∀ shown lines,
      (iter_simple_requirements shown lines).out =
        (lines.map cleanLine).filter (fun l => l != "" && !pyStartsWithChar l '-')) ∧
    (∀ shown lines,
      (iter_simple_requirements shown lines).shown_ignore_message =
        (shown || lines.any (fun l => cleanLine l != "" && pyStartsWithChar (cleanLine l) '-'))) ∧
    (∀ shown lines,
      (iter_simple_requirements shown lines).warnings =
        (if shown then 0
         else if lines.any (fun l => cleanLine l != "" && pyStartsWithChar (cleanLine l) '-')
         then 1 else 0)) ∧
    (∀ shown lines, (iter_simple_requirements shown lines).warnings ≤ 1) ∧
    (∀ lines1 lines2,
      (iter_simple_requirements false lines1).warnings +
        (iter_simple_requirements
          (iter_simple_requirements false lines1).shown_ignore_message lines2).warnings ≤ 1) := by
  have hout : ∀ shown lines, iter_simple_requirements shown lines =
      { shown_ignore_message :=
          shown || lines.any (fun l => cleanLine l != "" && pyStartsWithChar (cleanLine l) '-'),
        warnings :=
          (if shown then 0
           else if lines.any (fun l => cleanLine l != "" && pyStartsWithChar (cleanLine l) '-')
           then 1 else 0),
        out := (lines.map cleanLine).filter (fun l => l != "" && !pyStartsWithChar l '-') } := by
    intro shown lines
    unfold iter_simple_requirements
    rw [iter_fold_spec lines]
    simp
  refine ⟨?_, ?_, ?_, ?_, ?_⟩
  · intro shown lines
    rw [hout]
  · intro shown lines
    rw [hout]
  · intro shown lines
    rw [hout]
  · intro shown lines
    rw [hout]
    cases shown
    · simp only [Bool.false_eq_true, if_false]
      split <;> omega
    · simp
  · intro lines1 lines2
    rw [hout, hout]
    cases h1 : lines1.any (fun l => cleanLine l != "" && pyStartsWithChar (cleanLine l) '-') <;>
      cases h2 : lines2.any (fun l => cleanLine l != "" && pyStartsWithChar (cleanLine l) '-') <;>
        simp [h1, h2]

/-- Witness for C9 at a concrete file: a comment is stripped, a blank and a
whitespace-only line are skipped, two `-` option lines produce one warning,
and the remaining lines are yielded in order. -/
theorem iter_simple_requirements_spec_witness :
    (iter_simple_requirements false
        ["requests # comment", "", "   ", "-r other.txt", "--index-url x", "  click"]).out =
      (["requests # comment", "", "   ", "-r other.txt", "--index-url x", "  click"].map
        cleanLine).filter (fun l => l != "" && !pyStartsWithChar l '-') ∧
    (iter_simple_requirements false
        ["requests # comment", "", "   ", "-r other.txt", "--index-url x", "  click"]).warnings ≤ 1 := by
  have h := iter_simple_requirements_spec
  exact ⟨h.1 false _, h.2.2.2.1 false _⟩

/-! ## Claim C5 -/

theorem raceRun_thread0_inv (sched : List Nat) :
    ∀ (memo : Bool) (subs p0 : Nat), (∀ t ∈ sched, t = 0) →
    subs ≤ 1 → (memo = false → subs = 0) → (p0 = 1 → memo = false) →
    ∃ memo2 subs2 p02,
      raceRun sched ⟨memo, subs, [p0, 0]⟩ = ⟨memo2, subs2, [p02, 0]⟩ ∧
      subs2 ≤ 1 ∧ (memo2 = false → subs2 = 0) := by
  induction sched with
  | nil =>
    intro memo subs p0 _ h1 h2 _
    exact ⟨memo, subs, p0, rfl, h1, h2⟩
  | cons t rest ih =>
    intro memo subs p0 hall h1 h2 h3
    have ht : t = 0 := hall t (List.mem_cons_self _ _)
    subst ht
    have hrun : raceRun (0 :: rest) ⟨memo, subs, [p0, 0]⟩ =
        raceRun rest (raceStep ⟨memo, subs, [p0, 0]⟩ 0) := rfl
    rw [hrun]
    match p0 with
    | 0 =>
      cases memo
      · have hstep : raceStep ⟨false, subs, [0, 0]⟩ 0 = ⟨false, subs, [1, 0]⟩ := rfl
        rw [hstep]
        exact ih false subs 1 (fun x hx => hall x (List.mem_cons_of_mem _ hx)) h1 h2
          (fun _ => rfl)
      · have hstep : raceStep ⟨true, subs, [0, 0]⟩ 0 = ⟨true, subs, [2, 0]⟩ := rfl
        rw [hstep]
        exact ih true subs 2 (fun x hx => hall x (List.mem_cons_of_mem _ hx)) h1 h2
          (fun hc => absurd hc (by decide))
    | 1 =>
      have hmemo : memo = false := h3 rfl
      subst hmemo
      have hsub : subs = 0 := h2 rfl
      subst hsub
      have hstep : raceStep ⟨false, 0, [1, 0]⟩ 0 = ⟨true, 1, [2, 0]⟩ := rfl
      rw [hstep]
      exact ih true 1 2 (fun x hx => hall x (List.mem_cons_of_mem _ hx)) (by decide)
        (fun hc => Bool.noConfusion hc) (fun hc => absurd hc (by decide))
    | n + 2 =>
      have hstep : raceStep ⟨memo, subs, [n + 2, 0]⟩ 0 = ⟨memo, subs, [n + 2, 0]⟩ := rfl
      rw [hstep]
      exact ih memo subs (n + 2) (fun x hx => hall x (List.mem_cons_of_mem _ hx)) h1 h2
        (fun hc => absurd hc (by omega))

theorem raceRun_thread1_inv (sched : List Nat) :
    ∀ (memo : Bool) (subs p0 p1 : Nat), (∀ t ∈ sched, t = 1) →
    subs ≤ 1 → (memo = false → subs = 0) → (p1 = 1 → memo = false) →
    (raceRun sched ⟨memo, subs, [p0, p1]⟩).submits ≤ 1 := by
  induction sched with
  | nil =>
    intro memo subs p0 p1 _ h1 _ _
    exact h1
  | cons t rest ih =>
    intro memo subs p0 p1 hall h1 h2 h3
    have ht : t = 1 := hall t (List.mem_cons_self _ _)
    subst ht
    have hrun : raceRun (1 :: rest) ⟨memo, subs, [p0, p1]⟩ =
        raceRun rest (raceStep ⟨memo, subs, [p0, p1]⟩ 1) := rfl
    rw [hrun]
    match p1 with
    | 0 =>
      cases memo
      · have hstep : raceStep ⟨false, subs, [p0, 0]⟩ 1 = ⟨false, subs, [p0, 1]⟩ := rfl
        rw [hstep]
        exact ih false subs p0 1 (fun x hx => hall x (List.mem_cons_of_mem _ hx)) h1 h2
          (fun _ => rfl)
      · have hstep : raceStep ⟨true, subs, [p0, 0]⟩ 1 = ⟨true, subs, [p0, 2]⟩ := rfl
        rw [hstep]
        exact ih true subs p0 2 (fun x hx => hall x (List.mem_cons_of_mem _ hx)) h1 h2
          (fun hc => absurd hc (by decide))
    | 1 =>
      have hmemo : memo = false := h3 rfl
      subst hmemo
      have hsub : subs = 0 := h2 rfl
      subst hsub
      have hstep : raceStep ⟨false, 0, [p0, 1]⟩ 1 = ⟨true, 1, [p0, 2]⟩ := rfl
      rw [hstep]
      exact ih true 1 p0 2 (fun x hx => hall x (List.mem_cons_of_mem _ hx)) (by decide)
        (fun hc => Bool.noConfusion hc) (fun hc => absurd hc (by decide))
    | n + 2 =>
      have hstep : raceStep ⟨memo, subs, [p0, n + 2]⟩ 1 = ⟨memo, subs, [p0, n + 2]⟩ := rfl
      rw [hstep]
      exact ih memo subs p0 (n + 2) (fun x hx => hall x (List.mem_cons_of_mem _ hx)) h1 h2
        (fun hc => absurd hc (by omega))

theorem drainStep_memo (W : WalkSetup) (e : QueueEntry) (s s1 : WalkerState)
    (h : drainStep W e s = Except.ok s1) :
    s1.memo_version_metadata = s.memo_version_metadata ∨
    ∃ t, ¬t ∈ s.memo_version_metadata ∧
      s1.memo_version_metadata = s.memo_version_metadata ++ [t] := by
  unfold drainStep at h
  rcases hsel : selectedVersion W s e with er | v
  · rw [hsel] at h
    cases h
  · rw [hsel] at h
    dsimp only at h
    by_cases hkey : ((e.name, v, ([] : List String)) ∈ e.parent_keys)
    · rw [if_pos hkey] at h
      obtain rfl := Except.ok.inj h
      exact Or.inl rfl
    · rw [if_neg hkey] at h
      rcases hlv : (W.fetchProject e.name).lookupVersion v with _ | t
      · rw [hlv] at h
        obtain rfl := Except.ok.inj h
        exact Or.inl rfl
      · rw [hlv] at h
        obtain rfl := Except.ok.inj h
        by_cases hmem : t ∈ s.memo_version_metadata
        · refine Or.inl ?_
          show (if t ∈ s.memo_version_metadata then s.memo_version_metadata
                else s.memo_version_metadata ++ [t]) = s.memo_version_metadata
          rw [if_pos hmem]
        · refine Or.inr ⟨t, hmem, ?_⟩
          show (if t ∈ s.memo_version_metadata then s.memo_version_metadata
                else s.memo_version_metadata ++ [t]) = s.memo_version_metadata ++ [t]
          rw [if_neg hmem]

theorem nodup_append_singleton {α : Type} (l : List α) (a : α)
    (hl : l.Nodup) (ha : ¬a ∈ l) : (l ++ [a]).Nodup := by
  rw [List.nodup_append]
  refine ⟨hl, List.nodup_singleton a, ?_⟩
  intro x hx hx1
  rw [List.mem_singleton] at hx1
  subst hx1
  exact ha hx

theorem drainLoop_memo_nodup (W : WalkSetup) (fuel : Nat) :
    ∀ s s1 : WalkerState, drainLoop W fuel s = Except.ok s1 →
    s.memo_version_metadata.Nodup → s1.memo_version_metadata.Nodup := by
  induction fuel with
  | zero =>
    intro s s1 h hn
    unfold drainLoop at h
    obtain rfl := Except.ok.inj h
    exact hn
  | succ fuel ih =>
    intro s s1 h hn
    unfold drainLoop at h
    rcases hq : s.queue with _ | ⟨e, rest⟩
    · rw [hq] at h
      obtain rfl := Except.ok.inj h
      exact hn
    · rw [hq] at h
      dsimp only at h
      rcases hstep : drainStep W e { s with queue := rest } with er | s2
      · rw [hstep] at h
        cases h
      · rw [hstep] at h
        refine ih s2 s1 h ?_
        rcases drainStep_memo W e { s with queue := rest } s2 hstep with heq | ⟨t, ht, heq⟩
        · rw [heq]
          exact hn
        · rw [heq]
          exact nodup_append_singleton _ t hn ht

/-- Claim C5: within one walk, each distinct `ProjectVersion` triggers at
most one metadata fetch.  First conjunct: the two check-then-insert
submitters for one `ProjectVersion` key make at most one `pool.submit` call
under every schedule the source admits — the worker-side submitter, running
inside the unique `memo_fetch` future for the key's project, precedes the
drain-side submitter, which reaches its check only after that future's
`result()` has returned.  Second conjunct: the single-threaded drain loop
never duplicates a `memo_version_metadata` key either: the whole drain
preserves the no-duplicates property of the memo. -/
theorem memo_version_metadata_at_most_one_fetch :
    (∀ sched : List Nat, futureOrderedSchedule sched →
      (raceRun sched raceStart).submits ≤ 1) ∧
    (∀ (W : WalkSetup) (fuel : Nat) (s0 s1 : WalkerState),
      Walker.drain W fuel s0 = Except.ok s1 →
      s0.memo_version_metadata.Nodup → s1.memo_version_metadata.Nodup) := by
  constructor
  · rintro sched ⟨sw, sd, rfl, h1, h2⟩
    have happ : raceRun (sw ++ sd) raceStart =
        raceRun sd (raceRun sw raceStart) := by
      unfold raceRun
      rw [List.foldl_append]
    rw [happ]
    have hinit : raceStart = ⟨false, 0, [0, 0]⟩ := rfl
    rw [hinit]
    obtain ⟨memo2, subs2, p02, hrun, hs1, hs2⟩ :=
      raceRun_thread0_inv sw false 0 0 h1 (by decide) (fun _ => rfl)
        (fun hc => absurd hc (by decide))
    rw [hrun]
    exact raceRun_thread1_inv sd memo2 subs2 p02 0 h2 hs1 hs2
      (fun hc => absurd hc (by decide))
  · intro W fuel s0 s1 h hn
    unfold Walker.drain at h
    exact drainLoop_memo_nodup W fuel _ s1 h hn

/-- Witness for C5: the ordered schedule of the two submitters for one key
yields at most one scheduled fetch, and the demo drain ends with a
duplicate-free `memo_version_metadata`. -/
theorem memo_version_metadata_at_most_one_fetch_witness :
    (raceRun ([0, 0] ++ [1, 1]) raceStart).submits ≤ 1 ∧
    demoFinal.memo_version_metadata.Nodup :=
  ⟨memo_version_metadata_at_most_one_fetch.1 ([0, 0] ++ [1, 1])
      ⟨[0, 0], [1, 1], rfl, by decide, by decide⟩,
    memo_version_metadata_at_most_one_fetch.2 demoSetup 10 demoSeed demoFinal (by rfl)
      (by decide)⟩

/-! ## Claims C4 and C10: drain-loop lemmas -/

theorem lookupAssoc_setAssoc_same {α : Type} (m : List (String × α)) (k : String) (v : α) :
    lookupAssoc (setAssoc m k v) k = some v := by
  induction m with
  | nil => simp [setAssoc, lookupAssoc, List.find?]
  | cons kv rest ih =>
    unfold setAssoc
    by_cases h : kv.1 == k
    · rw [if_pos h]
      simp [lookupAssoc, List.find?]
    · rw [if_neg h]
      unfold lookupAssoc at ih ⊢
      have hstep : List.find? (fun q => q.1 == k) (kv :: setAssoc rest k v) =
          List.find? (fun q => q.1 == k) (setAssoc rest k v) :=
        List.find?_cons_of_neg _ h
      rw [hstep]
      exact ih

theorem lookupAssoc_setAssoc_other {α : Type} (m : List (String × α)) (k k2 : String)
    (v : α) (hne : ¬k2 = k) : lookupAssoc (setAssoc m k v) k2 = lookupAssoc m k2 := by
  induction m with
  | nil =>
    simp only [setAssoc, lookupAssoc, List.find?]
    have : ¬((k, v).1 == k2) = true := by
      simp only [beq_iff_eq]
      intro hc
      exact hne hc.symm
    simp [this]
  | cons kv rest ih =>
    unfold setAssoc
    by_cases h : kv.1 == k
    · rw [if_pos h]
      unfold lookupAssoc
      have h1 : ¬((k, v).1 == k2) = true := by
        simp only [beq_iff_eq]
        intro hc
        exact hne hc.symm
      have h2 : ¬(kv.1 == k2) = true := by
        simp only [beq_iff_eq] at h ⊢
        rw [h]
        intro hc
        exact hne hc.symm
      have e1 : List.find? (fun q => q.1 == k2) ((k, v) :: rest) =
          List.find? (fun q => q.1 == k2) rest := List.find?_cons_of_neg _ h1
      have e2 : List.find? (fun q => q.1 == k2) (kv :: rest) =
          List.find? (fun q => q.1 == k2) rest := List.find?_cons_of_neg _ h2
      rw [e1, e2]
    · rw [if_neg h]
      unfold lookupAssoc at ih ⊢
      by_cases hk2 : (kv.1 == k2) = true
      · have e1 : List.find? (fun q => q.1 == k2) (kv :: setAssoc rest k v) = some kv :=
          List.find?_cons_of_pos _ hk2
        have e2 : List.find? (fun q => q.1 == k2) (kv :: rest) = some kv :=
          List.find?_cons_of_pos _ hk2
        rw [e1, e2]
      · have e1 : List.find? (fun q => q.1 == k2) (kv :: setAssoc rest k v) =
            List.find? (fun q => q.1 == k2) (setAssoc rest k v) := List.find?_cons_of_neg _ hk2
        have e2 : List.find? (fun q => q.1 == k2) (kv :: rest) =
            List.find? (fun q => q.1 == k2) rest := List.find?_cons_of_neg _ hk2
        rw [e1, e2]
        exact ih

theorem mem_setAdd_self {α : Type} [DecidableEq α] (s : List α) (v : α) :
    v ∈ setAdd s v := by
  unfold setAdd
  by_cases h : v ∈ s
  · rw [if_pos h]
    exact h
  · rw [if_neg h]
    simp

theorem mem_setAdd_of_mem {α : Type} [DecidableEq α] (s : List α) (v x : α)
    (hx : x ∈ s) : x ∈ setAdd s v := by
  unfold setAdd
  by_cases h : v ∈ s
  · rw [if_pos h]
    exact hx
  · rw [if_neg h]
    exact List.mem_append_left _ hx

theorem lookupAssoc_conflictsAdd_same (kc : List (CanonicalName × List Version))
    (n : CanonicalName) (c v : Version) :
    lookupAssoc (conflictsAdd kc n c v) n =
      some (setAdd (setAdd ((lookupAssoc kc n).getD []) c) v) := by
  unfold conflictsAdd
  exact lookupAssoc_setAssoc_same kc n _

theorem lookupAssoc_conflictsAdd_other (kc : List (CanonicalName × List Version))
    (n m : CanonicalName) (c v : Version) (hne : ¬m = n) :
    lookupAssoc (conflictsAdd kc n c v) m = lookupAssoc kc m := by
  unfold conflictsAdd
  exact lookupAssoc_setAssoc_other kc n m _ hne

theorem drainStep_fields (W : WalkSetup) (e : QueueEntry) (s s1 : WalkerState)
    (h : drainStep W e s = Except.ok s1) :
    ∃ v, selectedVersion W s e = Except.ok v ∧
      (((e.name, v, ([] : List String)) ∈ e.parent_keys ∧
          s1.chosen = s.chosen ∧ s1.known_conflicts = s.known_conflicts ∧
          s1.chosenLog = s.chosenLog) ∨
       (¬(e.name, v, ([] : List String)) ∈ e.parent_keys ∧
          s1.chosen = setAssoc s.chosen e.name v ∧
          s1.chosenLog = s.chosenLog ++ [(e.name, v)] ∧
          s1.known_conflicts =
            (match lookupAssoc s.chosen e.name with
             | some c => if c != v then conflictsAdd s.known_conflicts e.name c v
                         else s.known_conflicts
             | none => s.known_conflicts))) := by
  unfold drainStep at h
  rcases hsel : selectedVersion W s e with er | v
  · rw [hsel] at h
    cases h
  · rw [hsel] at h
    refine ⟨v, rfl, ?_⟩
    dsimp only at h
    by_cases hkey : ((e.name, v, ([] : List String)) ∈ e.parent_keys)
    · rw [if_pos hkey] at h
      obtain rfl := Except.ok.inj h
      exact Or.inl ⟨hkey, rfl, rfl, rfl⟩
    · rw [if_neg hkey] at h
      rcases hlv : (W.fetchProject e.name).lookupVersion v with _ | t
      · rw [hlv] at h
        obtain rfl := Except.ok.inj h
        exact Or.inr ⟨hkey, rfl, rfl, rfl⟩
      · rw [hlv] at h
        obtain rfl := Except.ok.inj h
        exact Or.inr ⟨hkey, rfl, rfl, rfl⟩

theorem ConflictInv_step (W : WalkSetup) (e : QueueEntry) (s s1 : WalkerState)
    (h : drainStep W e s = Except.ok s1) (hinv : ConflictInv s) : ConflictInv s1 := by
  obtain ⟨v, _, hcase⟩ := drainStep_fields W e s s1 h
  obtain ⟨I1, I2, I3, I4⟩ := hinv
  rcases hcase with ⟨_, hch, hkc, hlog⟩ | ⟨_, hch, hlog, hkc⟩
  · exact ⟨fun n w hw vs hvs => I1 n w (hlog ▸ hw) vs (hkc ▸ hvs),
      fun n c hc => hlog ▸ I2 n c (hch ▸ hc),
      fun n vs hvs => by
        obtain ⟨c, hc⟩ := I3 n vs (hkc ▸ hvs)
        exact ⟨c, hch ▸ hc⟩,
      fun n w hw hnone => hch ▸ I4 n w (hlog ▸ hw) (hkc ▸ hnone)⟩
  · rcases hcur : lookupAssoc s.chosen e.name with _ | c
    · -- first selection for this name: no conflict update
      rw [hcur] at hkc
      dsimp only at hkc
      refine ⟨?_, ?_, ?_, ?_⟩
      · intro n w hw vs hvs
        rw [hkc] at hvs
        rw [hlog] at hw
        rcases List.mem_append.1 hw with hold | hnew
        · exact I1 n w hold vs hvs
        · simp only [List.mem_singleton, Prod.mk.injEq] at hnew
          obtain ⟨c0, hc0⟩ := I3 n vs hvs
          rw [hnew.1, hcur] at hc0
          cases hc0
      · intro n c2 hc2
        rw [hch] at hc2
        rw [hlog]
        by_cases hn : n = e.name
        · subst hn
          rw [lookupAssoc_setAssoc_same] at hc2
          obtain rfl := Option.some_inj.1 hc2
          exact List.mem_append_right _ (List.mem_singleton.2 rfl)
        · rw [lookupAssoc_setAssoc_other _ _ _ _ hn] at hc2
          exact List.mem_append_left _ (I2 n c2 hc2)
      · intro n vs hvs
        rw [hkc] at hvs
        rw [hch]
        by_cases hn : n = e.name
        · subst hn
          exact ⟨v, lookupAssoc_setAssoc_same _ _ _⟩
        · obtain ⟨c0, hc0⟩ := I3 n vs hvs
          rw [← lookupAssoc_setAssoc_other s.chosen e.name n v hn] at hc0
          exact ⟨c0, hc0⟩
      · intro n w hw hnone
        rw [hkc] at hnone
        rw [hlog] at hw
        rw [hch]
        rcases List.mem_append.1 hw with hold | hnew
        · by_cases hn : n = e.name
          · subst hn
            have hw2 := I4 e.name w hold hnone
            rw [hcur] at hw2
            cases hw2
          · rw [lookupAssoc_setAssoc_other _ _ _ _ hn]
            exact I4 n w hold hnone
        · simp only [List.mem_singleton, Prod.mk.injEq] at hnew
          rw [hnew.1, hnew.2]
          rw [lookupAssoc_setAssoc_same]
    · rw [hcur] at hkc
      dsimp only at hkc
      cases hbe : c != v
      · -- re-selecting the same version: no conflict update
        rw [hbe] at hkc
        simp only [Bool.false_eq_true, if_false] at hkc
        have hcv : c = v := by
          rw [bne_eq_false_iff_eq] at hbe
          exact hbe
        refine ⟨?_, ?_, ?_, ?_⟩
        · intro n w hw vs hvs
          rw [hkc] at hvs
          rw [hlog] at hw
          rcases List.mem_append.1 hw with hold | hnew
          · exact I1 n w hold vs hvs
          · simp only [List.mem_singleton, Prod.mk.injEq] at hnew
            rw [hnew.1] at hvs
            rw [hnew.2, ← hcv]
            exact I1 e.name c (I2 e.name c hcur) vs hvs
        · intro n c2 hc2
          rw [hch] at hc2
          rw [hlog]
          by_cases hn : n = e.name
          · subst hn
            rw [lookupAssoc_setAssoc_same] at hc2
            obtain rfl := Option.some_inj.1 hc2
            exact List.mem_append_right _ (List.mem_singleton.2 rfl)
          · rw [lookupAssoc_setAssoc_other _ _ _ _ hn] at hc2
            exact List.mem_append_left _ (I2 n c2 hc2)
        · intro n vs hvs
          rw [hch]
          by_cases hn : n = e.name
          · subst hn
            exact ⟨v, lookupAssoc_setAssoc_same _ _ _⟩
          · rw [hkc] at hvs
            obtain ⟨c0, hc0⟩ := I3 n vs hvs
            rw [← lookupAssoc_setAssoc_other s.chosen e.name n v hn] at hc0
            exact ⟨c0, hc0⟩
        · intro n w hw hnone
          rw [hkc] at hnone
          rw [hlog] at hw
          rw [hch]
          rcases List.mem_append.1 hw with hold | hnew
          · by_cases hn : n = e.name
            · subst hn
              have hw2 := I4 e.name w hold hnone
              rw [hcur] at hw2
              obtain rfl := Option.some_inj.1 hw2
              rw [hcv]
              rw [lookupAssoc_setAssoc_same]
            · rw [lookupAssoc_setAssoc_other _ _ _ _ hn]
              exact I4 n w hold hnone
          · simp only [List.mem_singleton, Prod.mk.injEq] at hnew
            rw [hnew.1, hnew.2]
            rw [lookupAssoc_setAssoc_same]
      · -- genuine conflict: both versions recorded
        rw [hbe] at hkc
        simp only [if_true] at hkc
        refine ⟨?_, ?_, ?_, ?_⟩
        · intro n w hw vs hvs
          rw [hkc] at hvs
          rw [hlog] at hw
          by_cases hn : n = e.name
          · subst hn
            rw [lookupAssoc_conflictsAdd_same] at hvs
            obtain rfl := Option.some_inj.1 hvs.symm
            rcases List.mem_append.1 hw with hold | hnew
            · rcases holdkc : lookupAssoc s.known_conflicts e.name with _ | vs0
              · have hw2 := I4 e.name w hold holdkc
                rw [hcur] at hw2
                obtain rfl := Option.some_inj.1 hw2
                exact mem_setAdd_of_mem _ _ _ (mem_setAdd_self _ _)
              · have hw0 := I1 e.name w hold vs0 holdkc
                exact mem_setAdd_of_mem _ _ _ (mem_setAdd_of_mem _ _ _ hw0)
            · simp only [List.mem_singleton, Prod.mk.injEq] at hnew
              rw [hnew.2]
              exact mem_setAdd_self _ _
          · rw [lookupAssoc_conflictsAdd_other _ _ _ _ _ hn] at hvs
            rcases List.mem_append.1 hw with hold | hnew
            · exact I1 n w hold vs hvs
            · simp only [List.mem_singleton, Prod.mk.injEq] at hnew
              exact absurd hnew.1 hn
        · intro n c2 hc2
          rw [hch] at hc2
          rw [hlog]
          by_cases hn : n = e.name
          · subst hn
            rw [lookupAssoc_setAssoc_same] at hc2
            obtain rfl := Option.some_inj.1 hc2
            exact List.mem_append_right _ (List.mem_singleton.2 rfl)
          · rw [lookupAssoc_setAssoc_other _ _ _ _ hn] at hc2
            exact List.mem_append_left _ (I2 n c2 hc2)
        · intro n vs hvs
          rw [hch]
          by_cases hn : n = e.name
          · subst hn
            exact ⟨v, lookupAssoc_setAssoc_same _ _ _⟩
          · rw [hkc] at hvs
            rw [lookupAssoc_conflictsAdd_other _ _ _ _ _ hn] at hvs
            obtain ⟨c0, hc0⟩ := I3 n vs hvs
            rw [← lookupAssoc_setAssoc_other s.chosen e.name n v hn] at hc0
            exact ⟨c0, hc0⟩
        · intro n w hw hnone
          rw [hkc] at hnone
          rw [hlog] at hw
          rw [hch]
          by_cases hn : n = e.name
          · subst hn
            rw [lookupAssoc_conflictsAdd_same] at hnone
            cases hnone
          · rw [lookupAssoc_conflictsAdd_other _ _ _ _ _ hn] at hnone
            rcases List.mem_append.1 hw with hold | hnew
            · rw [lookupAssoc_setAssoc_other _ _ _ _ hn]
              exact I4 n w hold hnone
            · simp only [List.mem_singleton, Prod.mk.injEq] at hnew
              exact absurd hnew.1 hn

theorem drainLoop_ConflictInv (W : WalkSetup) (fuel : Nat) :
    ∀ s s1 : WalkerState, ConflictInv s → drainLoop W fuel s = Except.ok s1 →
    ConflictInv s1 := by
  induction fuel with
  | zero =>
    intro s s1 hinv h
    unfold drainLoop at h
    obtain rfl := Except.ok.inj h
    exact hinv
  | succ fuel ih =>
    intro s s1 hinv h
    unfold drainLoop at h
    rcases hq : s.queue with _ | ⟨e, rest⟩
    · rw [hq] at h
      obtain rfl := Except.ok.inj h
      exact hinv
    · rw [hq] at h
      dsimp only at h
      rcases hstep : drainStep W e { s with queue := rest } with er | s2
      · rw [hstep] at h
        cases h
      · rw [hstep] at h
        have hinv2 : ConflictInv { s with queue := rest } := hinv
        exact ih s2 s1 (ConflictInv_step W e { s with queue := rest } s2 hstep hinv2) h

/-! ## Claim C4 -/

/-- Claim C4: within one `Walker.drain` call on a walker whose conflict
table starts empty, for every project name with an entry in
`known_conflicts`, the entry contains every version ever recorded in
`chosen[name]` during the drain (first conjunct, over the ghost log); a
non-cycle-skipped step updates the conflict table exactly when the newly
selected version differs from the currently recorded `chosen[name]`, adding
both versions (second conjunct); a cycle-skipped step leaves the table
unchanged (third conjunct). -/
theorem drain_conflict_table_complete :
    (∀ (W : WalkSetup) (fuel : Nat) (s0 s1 : WalkerState),
      s0.known_conflicts = [] →
      Walker.drain W fuel s0 = Except.ok s1 →
      ∀ n v, (n, v) ∈ s1.chosenLog →
        ∀ vs, lookupAssoc s1.known_conflicts n = some vs → v ∈ vs) ∧
    (∀ (W : WalkSetup) (e : QueueEntry) (s s1 : WalkerState) (v : Version),
      drainStep W e s = Except.ok s1 →
      selectedVersion W s e = Except.ok v →
      ¬(e.name, v, ([] : List String)) ∈ e.parent_keys →
      (s1.known_conflicts =
        (match lookupAssoc s.chosen e.name with
         | some c => if c != v then conflictsAdd s.known_conflicts e.name c v
                     else s.known_conflicts
         | none => s.known_conflicts)) ∧
      (∀ c, lookupAssoc s.chosen e.name = some c → ¬c = v →
        ∃ vs, lookupAssoc s1.known_conflicts e.name = some vs ∧ c ∈ vs ∧ v ∈ vs)) ∧
    (∀ (W : WalkSetup) (e : QueueEntry) (s s1 : WalkerState) (v : Version),
      drainStep W e s = Except.ok s1 →
      selectedVersion W s e = Except.ok v →
      (e.name, v, ([] : List String)) ∈ e.parent_keys →
      s1.known_conflicts = s.known_conflicts) := by
  refine ⟨?_, ?_, ?_⟩
  · intro W fuel s0 s1 hkc0 h n v hmem vs hvs
    unfold Walker.drain at h
    have hinv0 : ConflictInv { s0 with chosen := [], chosenLog := [] } := by
      refine ⟨?_, ?_, ?_, ?_⟩
      · intro n2 v2 hm
        cases hm
      · intro n2 c2 hc2
        simp [lookupAssoc, List.find?] at hc2
      · intro n2 vs2 hvs2
        dsimp only at hvs2
        rw [hkc0] at hvs2
        simp [lookupAssoc, List.find?] at hvs2
      · intro n2 w2 hm
        cases hm
    exact (drainLoop_ConflictInv W fuel _ s1 hinv0 h).1 n v hmem vs hvs
  · intro W e s s1 v hstep hsel hkey
    obtain ⟨v2, hsel2, hcase⟩ := drainStep_fields W e s s1 hstep
    rw [hsel] at hsel2
    obtain rfl := Except.ok.inj hsel2
    rcases hcase with ⟨hkey2, _, _, _⟩ | ⟨_, _, _, hkc⟩
    · exact absurd hkey2 hkey
    · refine ⟨hkc, ?_⟩
      intro c hcur hcv
      rw [hkc, hcur]
      dsimp only
      have hbe : (c != v) = true := by
        rw [bne_iff_ne]
        exact hcv
      rw [hbe]
      simp only [if_true]
      refine ⟨_, lookupAssoc_conflictsAdd_same _ _ _ _, ?_, mem_setAdd_self _ _⟩
      exact mem_setAdd_of_mem _ _ _ (mem_setAdd_self _ _)
  · intro W e s s1 v hstep hsel hkey
    obtain ⟨v2, hsel2, hcase⟩ := drainStep_fields W e s s1 hstep
    rw [hsel] at hsel2
    obtain rfl := Except.ok.inj hsel2
    rcases hcase with ⟨_, _, hkc, _⟩ | ⟨hkey2, _, _, _⟩
    · exact hkc
    · exact absurd hkey hkey2

/-- Witness for C4: in the demo walk (`a` then `a == 1` against the demo
index), both versions 2 and 1 are recorded for `a` during the drain, the
conflict table holds exactly `{a: {2, 1}}`, and the theorem places each
recorded version in the entry. -/
theorem drain_conflict_table_complete_witness :
    lookupAssoc demoFinal.known_conflicts "a" = some [2, 1] ∧
    (2 : Version) ∈ [2, 1] ∧ (1 : Version) ∈ [2, 1] := by
  have h := drain_conflict_table_complete
  have hdrain : Walker.drain demoSetup 10 demoSeed = Except.ok demoFinal := by rfl
  refine ⟨by decide, ?_, ?_⟩
  · exact h.1 demoSetup 10 demoSeed demoFinal (by decide) hdrain "a" 2 (by decide) [2, 1]
      (by decide)
  · exact h.1 demoSetup 10 demoSeed demoFinal (by decide) hdrain "a" 1 (by decide) [2, 1]
      (by decide)

theorem modifyNode_map_extras (f : Choice → Choice)
    (hf : ∀ c, (f c).extras = c.extras) :
    ∀ (nodes : List Choice) (i : Nat),
    (modifyNode nodes i f).map Choice.extras = nodes.map Choice.extras
  | [], _ => rfl
  | c :: rest, 0 => by
    simp [modifyNode, hf c]
  | c :: rest, j + 1 => by
    simp only [modifyNode, List.map_cons]
    rw [modifyNode_map_extras f hf rest j]

theorem drainStep_extras (W : WalkSetup) (e : QueueEntry) (s s1 : WalkerState)
    (h : drainStep W e s = Except.ok s1) :
    s1.nodes.map Choice.extras = s.nodes.map Choice.extras ++ [[]] := by
  unfold drainStep at h
  rcases hsel : selectedVersion W s e with er | v
  · rw [hsel] at h
    cases h
  · rw [hsel] at h
    dsimp only at h
    have hbase : ∀ g : Choice → Choice, (∀ c, (g c).extras = c.extras) →
        (modifyNode (s.nodes ++
            [{ project := e.name, version := v, extras := [], deps := [],
               has_sdist := false, has_wheel := false }]) e.parent g).map Choice.extras =
          s.nodes.map Choice.extras ++ [[]] := by
      intro g hg
      rw [modifyNode_map_extras g hg]
      simp
    by_cases hkey : ((e.name, v, ([] : List String)) ∈ e.parent_keys)
    · rw [if_pos hkey] at h
      obtain rfl := Except.ok.inj h
      exact hbase _ (fun c => rfl)
    · rw [if_neg hkey] at h
      rcases hlv : (W.fetchProject e.name).lookupVersion v with _ | t
      · rw [hlv] at h
        obtain rfl := Except.ok.inj h
        exact hbase _ (fun c => rfl)
      · rw [hlv] at h
        obtain rfl := Except.ok.inj h
        rw [modifyNode_map_extras
          (fun c => { c with has_sdist := (W.getDeps t).has_sdist,
                             has_wheel := (W.getDeps t).has_wheel }) (fun c => rfl)]
        exact hbase _ (fun c => rfl)

theorem drainLoop_extras (W : WalkSetup) (fuel : Nat) :
    ∀ s s1 : WalkerState, drainLoop W fuel s = Except.ok s1 →
    ∃ k, s1.nodes.map Choice.extras = s.nodes.map Choice.extras ++ List.replicate k [] := by
  induction fuel with
  | zero =>
    intro s s1 h
    unfold drainLoop at h
    obtain rfl := Except.ok.inj h
    exact ⟨0, by simp⟩
  | succ fuel ih =>
    intro s s1 h
    unfold drainLoop at h
    rcases hq : s.queue with _ | ⟨e, rest⟩
    · rw [hq] at h
      obtain rfl := Except.ok.inj h
      exact ⟨0, by simp⟩
    · rw [hq] at h
      dsimp only at h
      rcases hstep : drainStep W e { s with queue := rest } with er | s2
      · rw [hstep] at h
        cases h
      · rw [hstep] at h
        obtain ⟨k, hk⟩ := ih s2 s1 h
        refine ⟨k + 1, ?_⟩
        rw [hk, drainStep_extras W e { s with queue := rest } s2 hstep]
        show s.nodes.map Choice.extras ++ [[]] ++ List.replicate k [] = _
        rw [List.append_assoc]
        rfl

/-! ## Claim C10 -/

/-- Claim C10: every Choice created by `Walker.drain` has an empty extras
tuple: the extras column of the node arena is extended only with `[]`
(first conjunct), so if every pre-existing node (in particular the root
sentinel alone) has empty extras, every node of the drained graph does, and
every Choice key is `(name, version, ())` (second conjunct). -/
theorem drain_choices_have_no_extras :
    (∀ (W : WalkSetup) (fuel : Nat) (s0 s1 : WalkerState),
      Walker.drain W fuel s0 = Except.ok s1 →
      ∃ k, s1.nodes.map Choice.extras = s0.nodes.map Choice.extras ++ List.replicate k []) ∧
    (∀ (W : WalkSetup) (fuel : Nat) (s0 s1 : WalkerState),
      Walker.drain W fuel s0 = Except.ok s1 →
      (∀ c ∈ s0.nodes, c.extras = []) →
      ∀ c ∈ s1.nodes, c.extras = [] ∧ c.key = (c.project, c.version, [])) := by
  have hmain : ∀ (W : WalkSetup) (fuel : Nat) (s0 s1 : WalkerState),
      Walker.drain W fuel s0 = Except.ok s1 →
      ∃ k, s1.nodes.map Choice.extras = s0.nodes.map Choice.extras ++ List.replicate k [] := by
    intro W fuel s0 s1 h
    unfold Walker.drain at h
    obtain ⟨k, hk⟩ := drainLoop_extras W fuel _ s1 h
    exact ⟨k, hk⟩
  refine ⟨hmain, ?_⟩
  intro W fuel s0 s1 h h0 c hc
  obtain ⟨k, hk⟩ := hmain W fuel s0 s1 h
  have hcmem : c.extras ∈ s1.nodes.map Choice.extras := List.mem_map.2 ⟨c, hc, rfl⟩
  rw [hk] at hcmem
  have hex : c.extras = [] := by
    rcases List.mem_append.1 hcmem with h1 | h2
    · obtain ⟨c0, hc0, he0⟩ := List.mem_map.1 h1
      rw [← he0]
      exact h0 c0 hc0
    · exact List.eq_of_mem_replicate h2
  refine ⟨hex, ?_⟩
  unfold Choice.key
  rw [hex]

/-- Witness for C10: in the demo walk every node of the final graph,
including all four Choices created by the drain, has empty extras. -/
theorem drain_choices_have_no_extras_witness :
    demoFinal.nodes.all (fun c => c.extras == []) = true := by
  have h := (drain_choices_have_no_extras).2 demoSetup 10 demoSeed demoFinal (by rfl)
    (by decide)
  rw [List.all_eq_true]
  intro c hc
  have := (h c hc).1
  simp [this]
